import Mathlib

/-
Verification of the `sio` streaming authenticated-encryption channel.

The package splits a byte stream into fragments of `bufSize` (`L`) plaintext
bytes, seals each fragment with an external `cipher.AEAD` under the nonce
`pub ++ LE32(seq)` and the associated data `flag :: tag0`, where `tag0` is the
tag obtained by sealing an empty plaintext under sequence number 0 with the
caller's associated data, and `flag` is `0x00` for intermediate fragments and
`0x80` for the final fragment.

Bytes are modelled as natural numbers, byte buffers as `List Nat`, Go's
`uint32` sequence numbers as `Nat` reduced modulo `2^32` where the code relies
on wrap-around, and fallible operations return `Option`/`Except` values.
Write-after-close panics are modelled by a dedicated `panicked` result
constructor, and `nil`-vs-error results by `Option Err`.
-/

namespace Sio

/-- Little-endian 32-bit encoding of a sequence number, as produced by
`binary.LittleEndian.PutUint32` into the last four bytes of the nonce. -/
def le32 (n : Nat) : List Nat :=
  [n % 256, n / 2 ^ 8 % 256, n / 2 ^ 16 % 256, n / 2 ^ 24 % 256]

/-- The error surface of the package: `notAuthentic` is `ErrAuth`
(renamed `NotAuthentic` in later releases), `exceeded` is `ErrExceeded`,
`eof` is `io.EOF`, `shortWrite` is `io.ErrShortWrite`, and `ioErr` stands for
any other upstream/downstream error propagated verbatim. -/
inductive Err where
  | notAuthentic
  | exceeded
  | eof
  | shortWrite
  | ioErr
deriving DecidableEq

/-- The external `cipher.AEAD` collaborator: `tagSize` is `Overhead()`,
`seal`/`unseal` are `Seal`/`Open` taking nonce, payload and associated data.
The three laws are the AEAD interface contract the package relies on:
sealing adds exactly `tagSize` bytes, opening a sealed value under the same
nonce and associated data recovers the payload, and opening strips exactly
`tagSize` bytes. -/
structure AEAD where
  nonceSize : Nat
  tagSize : Nat
  Seal : List Nat → List Nat → List Nat → List Nat
  Open : List Nat → List Nat → List Nat → Option (List Nat)
  Open_Seal : ∀ n p a, Open n (Seal n p a) a = some p
  Seal_length : ∀ n p a, (Seal n p a).length = p.length + tagSize
  Open_length : ∀ n c a p, Open n c a = some p → p.length + tagSize = c.length

/-- `MaxBufSize = (1 << 24) - 1`, the largest permitted fragment size. -/
def MaxBufSize : Nat := 2 ^ 24 - 1

/-- `(1 << 32) - 1`, the largest `uint32` sequence number. -/
def maxU32 : Nat := 2 ^ 32 - 1

/-- `NewStream(cipher, bufSize)`: `none` models the programmer-error panic.
The code aborts when `cipher.NonceSize() < 4`, when `bufSize > MaxBufSize`,
or when `bufSize <= 0`; otherwise it returns the stream parameters.
`bufSize` is a Go `int`, hence modelled as `Int`. -/
def NewStream (nonceSizeFull : Nat) (bufSize : Int) : Option (Nat × Int) :=
  if nonceSizeFull < 4 then none
  else if bufSize > (MaxBufSize : Int) then none
  else if bufSize ≤ 0 then none
  else some (nonceSizeFull, bufSize)

/-- `Stream.Overhead(length)` for a stream with fragment size `L` and an AEAD
with tag size `tau`: `none` models the panic on a negative length or on a
length above the data limit `L * (2^32 - 1)`. -/
def Overhead (L tau : Nat) (length : Int) : Option Int :=
  if length < 0 then none
  else if length > (L : Int) * (2 ^ 32 - 1) then none
  else
    let overhead : Int := tau
    if length = 0 then some overhead
    else
      let t := length / (L : Int)
      if length % (L : Int) > 0 then some (t * overhead + overhead)
      else some (t * overhead)

/-- The AEAD nonce used for fragment `seq`: the caller-supplied public nonce
followed by the little-endian sequence number, as written by
`binary.LittleEndian.PutUint32(nonce[NonceSize()-4:], seq)`. -/
def fragNonce (pub : List Nat) (seq : Nat) : List Nat := pub ++ le32 seq

/-- Seal one fragment: `cipher.Seal(_, nonce, frag, associatedData)` where
the associated data is the one-byte flag followed by `tag0`. -/
def encSeal (A : AEAD) (pub tag0 : List Nat) (seq flag : Nat) (frag : List Nat) : List Nat :=
  A.Seal (fragNonce pub seq) frag (flag :: tag0)

/-- Open one fragment: `cipher.Open(_, nonce, c, associatedData)`. -/
def decOpen (A : AEAD) (pub tag0 : List Nat) (seq flag : Nat) (c : List Nat) :
    Option (List Nat) :=
  A.Open (fragNonce pub seq) c (flag :: tag0)

/-- The associated-data tag computed once by every adapter constructor:
`cipher.Seal(associatedData[1:1], nonce||LE32(0), nil, userAD)`. -/
def tagZero (A : AEAD) (pub ad : List Nat) : List Nat :=
  A.Seal (fragNonce pub 0) [] ad

/-- The number of fragments the channel splits a plaintext of `n` bytes into:
full fragments of `L` bytes, plus a final fragment of `0..L` bytes which is
merged with the preceding data only when it would be empty and `n > 0`.
(`L = 0` is unreachable: `NewStream` rejects it.) -/
def numFrags (L n : Nat) : Nat :=
  if L = 0 then 0
  else if n ≤ L then 1
  else 1 + numFrags L (n - L)
termination_by n
decreasing_by omega

/-- The fragment-wise ciphertext of plaintext `P` starting at sequence number
`s`: every fragment but the last is sealed with flag `0x00`, the last with
flag `0x80`.  This is the §4.1 channel construction shared by all encrypt
adapters; the adapter state machines below are proved to produce its
concatenation. -/
def sealFrags (A : AEAD) (L : Nat) (pub tag0 : List Nat) (s : Nat) (P : List Nat) :
    List (List Nat) :=
  if L = 0 then []
  else if P.length ≤ L then [encSeal A pub tag0 s 0x80 P]
  else encSeal A pub tag0 s 0x00 (P.take L) :: sealFrags A L pub tag0 (s + 1) (P.drop L)
termination_by P.length
decreasing_by simp; omega

/-- Downstream `io.Writer` behaviour as observed through `writeTo`: for the
byte string of one `Write` call, `none` means the bytes were accepted in full
and `some e` is the error `writeTo` reports (a downstream error propagated
verbatim, or `shortWrite` when fewer bytes were accepted without error). -/
def Sink : Type := List Nat → Option Err

/-- A downstream writer that accepts everything (e.g. `bytes.Buffer`). -/
def okSink : Sink := fun _ => none

/-- A downstream writer whose `Write` always fails with the given error. -/
def failSink (e : Err) : Sink := fun _ => some e

/-- Result of an operation that may hit a write-after-close panic. -/
inductive PRes (α : Type) where
  | panicked : PRes α
  | ret : α → PRes α
deriving DecidableEq

/-- State of an `EncWriter`: `buf` is `buffer[:offset]` (the plaintext bytes
buffered but not yet sealed, always at most `bufSize` of them), `out` the
bytes accepted by the downstream writer so far, `seq` the `seqNum` field,
and `errSt` the latched error. -/
structure EncWriterSt where
  seq : Nat
  buf : List Nat
  out : List Nat
  closed : Bool
  errSt : Option Err
deriving DecidableEq

/-- The `for len(p) > w.bufSize` loop of `EncWriter.Write`, followed by the
final `w.offset = copy(w.buffer, p)`.  `n` is the count of bytes already
consumed by the current call.  Each round checks `nextNonce` (which fails
with `ErrExceeded` at `seqNum == (1<<32)-1` and otherwise increments the
`uint32` counter), seals `p[:bufSize]` as an intermediate fragment and
forwards it. -/
def encWriterLoop (A : AEAD) (L : Nat) (pub tag0 : List Nat) (sink : Sink)
    (st : EncWriterSt) (p : List Nat) (n : Nat) : (Nat × Option Err) × EncWriterSt :=
  if L = 0 then ((n, none), st)
  else if p.length ≤ L then ((n + p.length, none), { st with buf := p })
  else if st.seq = maxU32 then ((n, some .exceeded), { st with errSt := some .exceeded })
  else
    let c := encSeal A pub tag0 st.seq 0x00 (p.take L)
    match sink c with
    | some e => ((n, some e), { st with seq := (st.seq + 1) % 2 ^ 32, errSt := some e })
    | none =>
        encWriterLoop A L pub tag0 sink
          { st with seq := (st.seq + 1) % 2 ^ 32, out := st.out ++ c } (p.drop L) (n + L)
termination_by p.length
decreasing_by simp; omega

/-- `EncWriter.Write(p)`: returns the consumed byte count and the error.
Panics when the writer is closed; replays a latched error; first tops up a
non-empty buffer (`copy(w.buffer[w.offset:w.bufSize], p)`) and seals it as an
intermediate fragment once full (note `w.offset = 0` is assigned *before*
`nextNonce`, so on `ErrExceeded` the buffered fragment is discarded); then
runs the seal loop over the remaining input. -/
def encWriterWrite (A : AEAD) (L : Nat) (pub tag0 : List Nat) (sink : Sink)
    (st : EncWriterSt) (p : List Nat) : PRes ((Nat × Option Err) × EncWriterSt) :=
  if st.closed then .panicked
  else match st.errSt with
  | some e => .ret ((0, some e), st)
  | none =>
    if st.buf.length > 0 then
      let nc := min p.length (L - st.buf.length)
      if nc = p.length then .ret ((nc, none), { st with buf := st.buf ++ p })
      else
        let full := st.buf ++ p.take nc
        if st.seq = maxU32 then
          .ret ((nc, some .exceeded), { st with buf := [], errSt := some .exceeded })
        else
          let c := encSeal A pub tag0 st.seq 0x00 full
          match sink c with
          | some e =>
              .ret ((nc, some e),
                { st with buf := [], seq := (st.seq + 1) % 2 ^ 32, errSt := some e })
          | none =>
              .ret (encWriterLoop A L pub tag0 sink
                { st with buf := [], seq := (st.seq + 1) % 2 ^ 32, out := st.out ++ c }
                (p.drop nc) nc)
    else .ret (encWriterLoop A L pub tag0 sink st p 0)

/-- `EncWriter.WriteByte(b)`: buffers `b` while fewer than `bufSize` bytes are
buffered, otherwise seals the buffered fragment first. -/
def encWriterWriteByte (A : AEAD) (L : Nat) (pub tag0 : List Nat) (sink : Sink)
    (st : EncWriterSt) (b : Nat) : PRes (Option Err × EncWriterSt) :=
  if st.closed then .panicked
  else match st.errSt with
  | some e => .ret (some e, st)
  | none =>
    if st.buf.length < L then .ret (none, { st with buf := st.buf ++ [b] })
    else if st.seq = maxU32 then
      .ret (some .exceeded, { st with errSt := some .exceeded })
    else
      let c := encSeal A pub tag0 st.seq 0x00 st.buf
      match sink c with
      | some e => .ret (some e, { st with seq := (st.seq + 1) % 2 ^ 32, errSt := some e })
      | none =>
          .ret (none,
            { st with seq := (st.seq + 1) % 2 ^ 32, out := st.out ++ c, buf := [b] })

/-- The body of `EncWriter.Close` once the latched-error guard has passed:
if not yet closed, seal `buffer[:offset]` as the final fragment (flag `0x80`)
under the current `seqNum` (no `nextNonce` exhaustion check) and forward it.
On success `w.err` is overwritten with `nil` by the `writeTo` assignment. -/
def encWriterCloseSeal (A : AEAD) (pub tag0 : List Nat) (sink : Sink)
    (st : EncWriterSt) : Option Err × EncWriterSt :=
  if st.closed then (none, st)
  else
    let c := encSeal A pub tag0 st.seq 0x80 st.buf
    match sink c with
    | some e => (some e, { st with closed := true, errSt := some e })
    | none => (none, { st with closed := true, errSt := none, out := st.out ++ c })

/-- `EncWriter.Close()`: returns a latched error other than `ErrExceeded`
without closing; otherwise seals the buffered bytes as the final fragment.
Idempotent.  (Closing a downstream `io.Closer` is not modelled: the claims
use plain writers.) -/
def encWriterClose (A : AEAD) (pub tag0 : List Nat) (sink : Sink)
    (st : EncWriterSt) : Option Err × EncWriterSt :=
  if st.errSt = none ∨ st.errSt = some .exceeded then encWriterCloseSeal A pub tag0 sink st
  else (st.errSt, st)

/-- The `for` loop of `EncWriter.ReadFrom`: `V` is the carry byte followed by
the bytes not yet read from the upstream reader, `n` the running total.  Each
round reads up to `bufSize` fresh bytes after the carry; a short read makes
`carry :: fresh` the final fragment and calls `Close`. -/
def encWriterRFLoop (A : AEAD) (L : Nat) (pub tag0 : List Nat) (sink : Sink)
    (st : EncWriterSt) (V : List Nat) (n : Nat) : (Nat × Option Err) × EncWriterSt :=
  if L = 0 then ((n, none), st)
  else if V.length < L + 1 then
    let (ce, st') := encWriterClose A pub tag0 sink { st with buf := V }
    ((n + (V.length - 1), ce), st')
  else if st.seq = maxU32 then ((n, some .exceeded), { st with errSt := some .exceeded })
  else
    let c := encSeal A pub tag0 st.seq 0x00 (V.take L)
    match sink c with
    | some e => ((n, some e), { st with seq := (st.seq + 1) % 2 ^ 32, errSt := some e })
    | none =>
        encWriterRFLoop A L pub tag0 sink
          { st with seq := (st.seq + 1) % 2 ^ 32, out := st.out ++ c } (V.drop L) (n + L)
termination_by V.length
decreasing_by simp; omega

/-- `EncWriter.ReadFrom(r)` with upstream contents `U`: reads `bufSize + 1`
bytes ahead; a short first read makes `U` the final fragment (via `Close`),
a full read seals `U[:bufSize]` as intermediate with `U[bufSize]` as the
carry byte. Existing buffered bytes are clobbered, as in the source. -/
def encWriterReadFrom (A : AEAD) (L : Nat) (pub tag0 : List Nat) (sink : Sink)
    (st : EncWriterSt) (U : List Nat) : PRes ((Nat × Option Err) × EncWriterSt) :=
  if st.closed then .panicked
  else match st.errSt with
  | some e => .ret ((0, some e), st)
  | none =>
    if L = 0 then .ret ((0, none), st)
    else if U.length < L + 1 then
      let (ce, st') := encWriterClose A pub tag0 sink { st with buf := U }
      .ret ((U.length, ce), st')
    else if st.seq = maxU32 then
      .ret ((0, some .exceeded), { st with errSt := some .exceeded })
    else
      let c := encSeal A pub tag0 st.seq 0x00 (U.take L)
      match sink c with
      | some e => .ret ((0, some e), { st with seq := (st.seq + 1) % 2 ^ 32, errSt := some e })
      | none =>
          .ret (encWriterRFLoop A L pub tag0 sink
            { st with seq := (st.seq + 1) % 2 ^ 32, out := st.out ++ c } (U.drop L) (L + 1))

/-- State of a `DecWriter`: `buf` is `buffer[:offset]` (at most
`bufSize + Overhead()` buffered ciphertext bytes), `out` the plaintext bytes
accepted by the downstream writer. -/
structure DecWriterSt where
  seq : Nat
  buf : List Nat
  out : List Nat
  closed : Bool
  errSt : Option Err
deriving DecidableEq

/-- The `for len(p) > ciphertextLen` loop of `DecWriter.Write`: each round
checks `nextNonce`, opens `p[:bufSize+Overhead()]` as an intermediate
fragment (flag `0x00`) and forwards the plaintext; an `Open` failure latches
`ErrAuth`.  The final `w.offset = copy(w.buffer, p)` buffers the remainder. -/
def decWriterLoop (A : AEAD) (L : Nat) (pub tag0 : List Nat) (sink : Sink)
    (st : DecWriterSt) (p : List Nat) (n : Nat) : (Nat × Option Err) × DecWriterSt :=
  if L = 0 then ((n, none), st)
  else if p.length ≤ L + A.tagSize then ((n + p.length, none), { st with buf := p })
  else if st.seq = maxU32 then ((n, some .exceeded), { st with errSt := some .exceeded })
  else
    match decOpen A pub tag0 st.seq 0x00 (p.take (L + A.tagSize)) with
    | none =>
        ((n, some .notAuthentic),
          { st with seq := (st.seq + 1) % 2 ^ 32, errSt := some .notAuthentic })
    | some pt =>
        match sink pt with
        | some e => ((n, some e), { st with seq := (st.seq + 1) % 2 ^ 32, errSt := some e })
        | none =>
            decWriterLoop A L pub tag0 sink
              { st with seq := (st.seq + 1) % 2 ^ 32, out := st.out ++ pt }
              (p.drop (L + A.tagSize)) (n + (L + A.tagSize))
termination_by p.length
decreasing_by simp; omega

/-- `DecWriter.Write(p)`: panics when closed, replays a latched error, tops up
a non-empty buffer and opens it as an intermediate fragment when a byte
beyond `bufSize + Overhead()` arrives (only then is it provably not the final
fragment), then runs the open loop over the remaining input. -/
def decWriterWrite (A : AEAD) (L : Nat) (pub tag0 : List Nat) (sink : Sink)
    (st : DecWriterSt) (p : List Nat) : PRes ((Nat × Option Err) × DecWriterSt) :=
  if st.closed then .panicked
  else match st.errSt with
  | some e => .ret ((0, some e), st)
  | none =>
    if st.buf.length > 0 then
      let nc := min p.length (L + A.tagSize - st.buf.length)
      if nc = p.length then .ret ((nc, none), { st with buf := st.buf ++ p })
      else
        let full := st.buf ++ p.take nc
        if st.seq = maxU32 then
          .ret ((nc, some .exceeded), { st with buf := [], errSt := some .exceeded })
        else
          match decOpen A pub tag0 st.seq 0x00 full with
          | none =>
              .ret ((nc, some .notAuthentic),
                { st with buf := [], seq := (st.seq + 1) % 2 ^ 32,
                          errSt := some .notAuthentic })
          | some pt =>
              match sink pt with
              | some e =>
                  .ret ((nc, some e),
                    { st with buf := [], seq := (st.seq + 1) % 2 ^ 32, errSt := some e })
              | none =>
                  .ret (decWriterLoop A L pub tag0 sink
                    { st with buf := [], seq := (st.seq + 1) % 2 ^ 32, out := st.out ++ pt }
                    (p.drop nc) nc)
    else .ret (decWriterLoop A L pub tag0 sink st p 0)

/-- `DecWriter.WriteByte(b)`: buffers `b` while fewer than
`bufSize + Overhead()` bytes are buffered, otherwise first opens the buffered
fragment as intermediate. -/
def decWriterWriteByte (A : AEAD) (L : Nat) (pub tag0 : List Nat) (sink : Sink)
    (st : DecWriterSt) (b : Nat) : PRes (Option Err × DecWriterSt) :=
  if st.closed then .panicked
  else match st.errSt with
  | some e => .ret (some e, st)
  | none =>
    if st.buf.length < L + A.tagSize then .ret (none, { st with buf := st.buf ++ [b] })
    else if st.seq = maxU32 then
      .ret (some .exceeded, { st with errSt := some .exceeded })
    else
      match decOpen A pub tag0 st.seq 0x00 st.buf with
      | none =>
          .ret (some .notAuthentic,
            { st with seq := (st.seq + 1) % 2 ^ 32, errSt := some .notAuthentic })
      | some pt =>
          match sink pt with
          | some e => .ret (some e, { st with seq := (st.seq + 1) % 2 ^ 32, errSt := some e })
          | none =>
              .ret (none,
                { st with seq := (st.seq + 1) % 2 ^ 32, out := st.out ++ pt, buf := [b] })

/-- The body of `DecWriter.Close` once the latched-error guard has passed:
open `buffer[:offset]` as the final fragment (flag `0x80`) under the current
`seqNum`; an `Open` failure (including fewer than `Overhead()` buffered
bytes) latches `ErrAuth`. -/
def decWriterCloseOpen (A : AEAD) (pub tag0 : List Nat) (sink : Sink)
    (st : DecWriterSt) : Option Err × DecWriterSt :=
  if st.closed then (none, st)
  else
    match decOpen A pub tag0 st.seq 0x80 st.buf with
    | none => (some .notAuthentic, { st with closed := true, errSt := some .notAuthentic })
    | some pt =>
        match sink pt with
        | some e => (some e, { st with closed := true, errSt := some e })
        | none => (none, { st with closed := true, errSt := none, out := st.out ++ pt })

/-- `DecWriter.Close()`: returns a latched error other than `ErrExceeded`
without closing; otherwise opens the buffered bytes as the final fragment.
Idempotent. -/
def decWriterClose (A : AEAD) (pub tag0 : List Nat) (sink : Sink)
    (st : DecWriterSt) : Option Err × DecWriterSt :=
  if st.errSt = none ∨ st.errSt = some .exceeded then decWriterCloseOpen A pub tag0 sink st
  else (st.errSt, st)

/-- The `for` loop of `DecWriter.ReadFrom`: `V` is the carry byte followed by
the unread upstream bytes; each round reads up to `bufSize + Overhead()`
fresh bytes after the carry; a short read makes `carry :: fresh` the final
fragment and calls `Close`. -/
def decWriterRFLoop (A : AEAD) (L : Nat) (pub tag0 : List Nat) (sink : Sink)
    (st : DecWriterSt) (V : List Nat) (n : Nat) : (Nat × Option Err) × DecWriterSt :=
  if L = 0 then ((n, none), st)
  else if V.length < L + A.tagSize + 1 then
    let (ce, st') := decWriterClose A pub tag0 sink { st with buf := V }
    ((n + (V.length - 1), ce), st')
  else if st.seq = maxU32 then ((n, some .exceeded), { st with errSt := some .exceeded })
  else
    match decOpen A pub tag0 st.seq 0x00 (V.take (L + A.tagSize)) with
    | none =>
        ((n, some .notAuthentic),
          { st with seq := (st.seq + 1) % 2 ^ 32, errSt := some .notAuthentic })
    | some pt =>
        match sink pt with
        | some e => ((n, some e), { st with seq := (st.seq + 1) % 2 ^ 32, errSt := some e })
        | none =>
            decWriterRFLoop A L pub tag0 sink
              { st with seq := (st.seq + 1) % 2 ^ 32, out := st.out ++ pt }
              (V.drop (L + A.tagSize)) (n + (L + A.tagSize))
termination_by V.length
decreasing_by simp; omega

/-- `DecWriter.ReadFrom(r)` with upstream contents `U`: reads
`bufSize + Overhead() + 1` bytes ahead; a short first read makes `U` the
final fragment (via `Close`), a full read opens the first
`bufSize + Overhead()` bytes as intermediate with the extra byte as carry. -/
def decWriterReadFrom (A : AEAD) (L : Nat) (pub tag0 : List Nat) (sink : Sink)
    (st : DecWriterSt) (U : List Nat) : PRes ((Nat × Option Err) × DecWriterSt) :=
  if st.closed then .panicked
  else match st.errSt with
  | some e => .ret ((0, some e), st)
  | none =>
    if L = 0 then .ret ((0, none), st)
    else if U.length < L + A.tagSize + 1 then
      let (ce, st') := decWriterClose A pub tag0 sink { st with buf := U }
      .ret ((U.length, ce), st')
    else if st.seq = maxU32 then
      .ret ((0, some .exceeded), { st with errSt := some .exceeded })
    else
      match decOpen A pub tag0 st.seq 0x00 (U.take (L + A.tagSize)) with
      | none =>
          .ret ((0, some .notAuthentic),
            { st with seq := (st.seq + 1) % 2 ^ 32, errSt := some .notAuthentic })
      | some pt =>
          match sink pt with
          | some e =>
              .ret ((0, some e), { st with seq := (st.seq + 1) % 2 ^ 32, errSt := some e })
          | none =>
              .ret (decWriterRFLoop A L pub tag0 sink
                { st with seq := (st.seq + 1) % 2 ^ 32, out := st.out ++ pt }
                (U.drop (L + A.tagSize)) (L + A.tagSize + 1))

/-- Full drain of an `EncReader` (as performed by `WriteTo`, or by `Read`
calls whose destination holds a whole sealed fragment), starting at sequence
number `s` with `V` the bytes still to come from the upstream reader
(including the carry byte once one exists).  Each `readFragment` first
rejects a wrapped-around `seqNum == 0` with `ErrExceeded`, then reads one
byte beyond the fragment: a short read yields the final fragment (flag
`0x80`) and ends the stream, a full read seals `bufSize` bytes as an
intermediate fragment and keeps the extra byte as carry. -/
def encReaderDrain (A : AEAD) (L : Nat) (pub tag0 : List Nat) (s : Nat) (V : List Nat) :
    Except Err (List Nat) :=
  if L = 0 then .ok []
  else if s % 2 ^ 32 = 0 then .error .exceeded
  else if V.length ≤ L then .ok (encSeal A pub tag0 (s % 2 ^ 32) 0x80 V)
  else
    match encReaderDrain A L pub tag0 (s + 1) (V.drop L) with
    | .error e => .error e
    | .ok rest => .ok (encSeal A pub tag0 (s % 2 ^ 32) 0x00 (V.take L) ++ rest)
termination_by V.length
decreasing_by simp; omega

/-- Full drain of a `DecReader` (as performed by `WriteTo`, or by `Read`
calls whose destination holds a whole fragment), starting at sequence number
`s` with `V` the bytes still to come from the upstream reader (including the
carry byte once one exists).  A short read with fewer than `Overhead()`
total bytes latches `ErrAuth`; otherwise the remainder is opened as the
final fragment with flag `0x80`.  A full read of `bufSize + Overhead() + 1`
bytes opens the first `bufSize + Overhead()` as an intermediate fragment.
This condensed form is exact on the success path and in the terminal error
it reports, which is all the round-trip and truncation theorems use; it does
not carry the plaintext the code forwards before a later failure — for that
behaviour see `decReaderWriteTo` and `decReaderDrainN` below. -/
def decReaderDrain (A : AEAD) (L : Nat) (pub tag0 : List Nat) (s : Nat) (V : List Nat) :
    Except Err (List Nat) :=
  if L = 0 then .ok []
  else if s % 2 ^ 32 = 0 then .error .exceeded
  else if V.length ≤ L + A.tagSize then
    if V.length < A.tagSize then .error .notAuthentic
    else
      match decOpen A pub tag0 (s % 2 ^ 32) 0x80 V with
      | none => .error .notAuthentic
      | some pt => .ok pt
  else
    match decOpen A pub tag0 (s % 2 ^ 32) 0x00 (V.take (L + A.tagSize)) with
    | none => .error .notAuthentic
    | some pt =>
        match decReaderDrain A L pub tag0 (s + 1) (V.drop (L + A.tagSize)) with
        | .error e => .error e
        | .ok rest => .ok (pt ++ rest)
termination_by V.length
decreasing_by simp; omega

/-- `Stream.EncryptWriter(w, nonce, ad)` followed by one `Write(P)` and
`Close()` against a downstream writer that accepts everything: the
constructor seals the associated-data tag under sequence number 0 and starts
`seqNum` at 1. Returns the ciphertext accepted downstream. -/
def encryptWriterRun (A : AEAD) (L : Nat) (pub ad P : List Nat) : Except Err (List Nat) :=
  match encWriterWrite A L pub (tagZero A pub ad) okSink ⟨1, [], [], false, none⟩ P with
  | .panicked => .error .ioErr
  | .ret ((_, some e), _) => .error e
  | .ret ((_, none), st) =>
      match encWriterClose A pub (tagZero A pub ad) okSink st with
      | (some e, _) => .error e
      | (none, st') => .ok st'.out

/-- `Stream.EncryptReader(r, nonce, ad)` drained to the end. -/
def encryptReaderRun (A : AEAD) (L : Nat) (pub ad P : List Nat) : Except Err (List Nat) :=
  encReaderDrain A L pub (tagZero A pub ad) 1 P

/-- `Stream.DecryptWriter(w, nonce, ad)` followed by one `Write(C)` and
`Close()` against a downstream writer that accepts everything.  Returns the
plaintext accepted downstream. -/
def decryptWriterRun (A : AEAD) (L : Nat) (pub ad C : List Nat) : Except Err (List Nat) :=
  match decWriterWrite A L pub (tagZero A pub ad) okSink ⟨1, [], [], false, none⟩ C with
  | .panicked => .error .ioErr
  | .ret ((_, some e), _) => .error e
  | .ret ((_, none), st) =>
      match decWriterClose A pub (tagZero A pub ad) okSink st with
      | (some e, _) => .error e
      | (none, st') => .ok st'.out

/-- `Stream.DecryptReader(r, nonce, ad)` drained to the end. -/
def decryptReaderRun (A : AEAD) (L : Nat) (pub ad C : List Nat) : Except Err (List Nat) :=
  decReaderDrain A L pub (tagZero A pub ad) 1 C

/-- `DecReaderAt.ReadAt(p, offset)` over a ciphertext source `C`, with
`plen = len(p)`: rejects a negative offset, fails with `ErrExceeded` when the
fragment index `t = offset / bufSize` satisfies `t + 1 > (1<<32) - 1`, and
otherwise decrypts through an ephemeral `DecReader` whose upstream is the
section of `C` starting at byte `t * (bufSize + Overhead())` and whose
`seqNum` starts at `1 + t`, discarding the first `offset % bufSize` plaintext
bytes.  The ephemeral reader is modelled by its drain; when no byte is
requested (`offset % bufSize = 0` and `plen = 0`) neither `io.CopyN` nor
`readFrom` ever calls into it, which the first branch reflects.  The final
error mirrors `readFrom`: `io.EOF` when fewer than `plen` bytes remain.
This condensed form agrees with the code on well-formed ciphertexts (the
scope of the random-access theorem); it is all-or-nothing on a corrupt or
exhausting tail, where the code reads lazily and delivers the authentic
bytes it opened first — that behaviour is `decReadAtP` below. -/
def decReadAt (A : AEAD) (L : Nat) (pub tag0 : List Nat) (C : List Nat)
    (plen : Nat) (offset : Int) : List Nat × Option Err :=
  if offset < 0 then ([], some .ioErr)
  else
    let t := offset.toNat / L
    if t + 1 > 2 ^ 32 - 1 then ([], some .exceeded)
    else
      let k := offset.toNat % L
      if k + plen = 0 then ([], none)
      else
        match decReaderDrain A L pub tag0 (1 + t) (C.drop (t * (L + A.tagSize))) with
        | .error e => ([], some e)
        | .ok pt =>
            if pt.length < k then ([], some .eof)
            else
              let d := (pt.drop k).take plen
              (d, if d.length < plen then some .eof else none)

/-- `Stream.DecryptReaderAt(r, nonce, ad).ReadAt(p, offset)`. -/
def decryptReaderAtRun (A : AEAD) (L : Nat) (pub ad C : List Nat)
    (plen : Nat) (offset : Int) : List Nat × Option Err :=
  decReadAt A L pub (tagZero A pub ad) C plen offset

/-- State of an `EncReader`: `up` holds the bytes not yet read from the
upstream reader, `ctBuf` is `ciphertextBuffer`, `off` its delivery offset. -/
structure EncReaderSt where
  up : List Nat
  seq : Nat
  carry : Nat
  firstRead : Bool
  closed : Bool
  errSt : Option Err
  ctBuf : List Nat
  off : Nat
deriving DecidableEq

/-- `EncReader.readFragment(p, firstReadOffset)` with `plen = len(p)`:
rejects a wrapped `seqNum == 0`, writes the carry byte at `buffer[0]`, reads
up to `1 + bufSize - firstReadOffset` fresh bytes, and seals either an
intermediate fragment (full read, the extra byte becomes the carry) or the
final fragment (short read, flag `0x80`, also reports `io.EOF` when the
ciphertext fits in `p`).  When `p` is smaller than the sealed fragment the
ciphertext is kept in `ciphertextBuffer` and `offset = copy(p, ...)`.
Returns the bytes copied into `p`. -/
def encReaderReadFragment (A : AEAD) (L : Nat) (pub tag0 : List Nat)
    (st : EncReaderSt) (plen fro : Nat) : (List Nat × Option Err) × EncReaderSt :=
  if st.seq % 2 ^ 32 = 0 then (([], some .exceeded), { st with errSt := some .exceeded })
  else
    let want := 1 + L - fro
    let V := (if fro = 0 then [] else [st.carry]) ++ st.up.take want
    let st1 := { st with up := st.up.drop want, seq := st.seq + 1 }
    if st.up.length < want then
      let c := encSeal A pub tag0 (st.seq % 2 ^ 32) 0x80 V
      let st2 := { st1 with closed := true }
      if plen < V.length + A.tagSize then
        ((c.take plen, none), { st2 with ctBuf := c, off := min plen c.length })
      else ((c, some .eof), st2)
    else
      let frag := V.take L
      let c := encSeal A pub tag0 (st.seq % 2 ^ 32) 0x00 frag
      let st2 := { st1 with carry := (V.drop L).headD 0 }
      if plen < L + A.tagSize then
        ((c.take plen, none), { st2 with ctBuf := c, off := min plen c.length })
      else ((c, none), st2)

/-- The tail of `EncReader.Read` after any pending `ciphertextBuffer` bytes
were delivered: `io.EOF` once closed, otherwise `readFragment(p, 1)`. -/
def encReaderReadTail (A : AEAD) (L : Nat) (pub tag0 : List Nat)
    (st : EncReaderSt) (plen : Nat) (acc : List Nat) :
    (List Nat × Option Err) × EncReaderSt :=
  if st.closed then ((acc, some .eof), st)
  else
    let ((d, e), st') := encReaderReadFragment A L pub tag0 st plen 1
    ((acc ++ d, e), st')

/-- The middle of `EncReader.Read`: when `offset > 0`, deliver pending bytes
from `ciphertextBuffer[offset:]`; if they satisfy the request, return
without touching the upstream, otherwise reset `offset` and continue. -/
def encReaderReadRest (A : AEAD) (L : Nat) (pub tag0 : List Nat)
    (st : EncReaderSt) (plen : Nat) (acc : List Nat) :
    (List Nat × Option Err) × EncReaderSt :=
  if st.off > 0 then
    let avail := st.ctBuf.drop st.off
    let nn := min plen avail.length
    if nn = plen then ((acc ++ avail.take plen, none), { st with off := st.off + nn })
    else encReaderReadTail A L pub tag0 { st with off := 0 } (plen - nn) (acc ++ avail)
  else encReaderReadTail A L pub tag0 st plen acc

/-- `EncReader.Read(p)` with `plen = len(p)`: replays a latched error; on the
first read calls `readFragment(p, 0)` (propagating its error immediately);
then serves pending ciphertext and finally the next fragment.  Returns the
bytes written into `p` and the error. -/
def encReaderRead (A : AEAD) (L : Nat) (pub tag0 : List Nat)
    (st : EncReaderSt) (plen : Nat) : (List Nat × Option Err) × EncReaderSt :=
  match st.errSt with
  | some e => (([], some e), st)
  | none =>
    if st.firstRead then
      let ((d, e), st1) := encReaderReadFragment A L pub tag0 { st with firstRead := false } plen 0
      match e with
      | some e' => ((d, some e'), st1)
      | none => encReaderReadRest A L pub tag0 st1 (plen - d.length) d
    else encReaderReadRest A L pub tag0 st plen []

/-- The fresh `EncReader` produced by `Stream.EncryptReader` for upstream
contents `U`. -/
def encReaderInit (U : List Nat) : EncReaderSt :=
  ⟨U, 1, 0, true, false, none, [], 0⟩

/-- State of a `DecReader`: `pbuf` is `plaintextBuffer`. -/
structure DecReaderSt where
  up : List Nat
  seq : Nat
  carry : Nat
  firstRead : Bool
  closed : Bool
  errSt : Option Err
  pbuf : List Nat
  off : Nat
deriving DecidableEq

/-- `DecReader.readFragment(p, firstReadOffset)` with `plen = len(p)`:
rejects a wrapped `seqNum == 0`, reads up to
`1 + bufSize + Overhead() - firstReadOffset` fresh bytes after the carry.
A short read with fewer than `Overhead()` total bytes latches `ErrAuth`;
otherwise the fragment is opened (flag `0x80` on the short read, `0x00` on a
full read, where the extra byte becomes the carry).  An `Open` failure
latches `ErrAuth` and delivers nothing; on success the plaintext goes into
`p`, or into `plaintextBuffer` with `offset = copy(p, ...)` when `p` is too
small.  Returns the bytes copied into `p`. -/
def decReaderReadFragment (A : AEAD) (L : Nat) (pub tag0 : List Nat)
    (st : DecReaderSt) (plen fro : Nat) : (List Nat × Option Err) × DecReaderSt :=
  if st.seq % 2 ^ 32 = 0 then (([], some .exceeded), { st with errSt := some .exceeded })
  else
    let ctLen := L + A.tagSize
    let want := 1 + ctLen - fro
    let V := (if fro = 0 then [] else [st.carry]) ++ st.up.take want
    let st1 := { st with up := st.up.drop want, seq := st.seq + 1 }
    if st.up.length < want then
      if V.length < A.tagSize then
        (([], some .notAuthentic), { st1 with errSt := some .notAuthentic })
      else
        match decOpen A pub tag0 (st.seq % 2 ^ 32) 0x80 V with
        | none => (([], some .notAuthentic), { st1 with errSt := some .notAuthentic })
        | some pt =>
            let st2 := { st1 with closed := true }
            if plen < V.length - A.tagSize then
              ((pt.take plen, none), { st2 with pbuf := pt, off := min plen pt.length })
            else ((pt, some .eof), st2)
    else
      let frag := V.take ctLen
      match decOpen A pub tag0 (st.seq % 2 ^ 32) 0x00 frag with
      | none => (([], some .notAuthentic), { st1 with errSt := some .notAuthentic })
      | some pt =>
          let st2 := { st1 with carry := (V.drop ctLen).headD 0 }
          if plen < L then
            ((pt.take plen, none), { st2 with pbuf := pt, off := min plen pt.length })
          else ((pt, none), st2)

/-- The tail of `DecReader.Read` after any pending `plaintextBuffer` bytes
were delivered: `io.EOF` once closed, otherwise `readFragment(p, 1)`. -/
def decReaderReadTail (A : AEAD) (L : Nat) (pub tag0 : List Nat)
    (st : DecReaderSt) (plen : Nat) (acc : List Nat) :
    (List Nat × Option Err) × DecReaderSt :=
  if st.closed then ((acc, some .eof), st)
  else
    let ((d, e), st') := decReaderReadFragment A L pub tag0 st plen 1
    ((acc ++ d, e), st')

/-- The middle of `DecReader.Read`: serve pending plaintext first. -/
def decReaderReadRest (A : AEAD) (L : Nat) (pub tag0 : List Nat)
    (st : DecReaderSt) (plen : Nat) (acc : List Nat) :
    (List Nat × Option Err) × DecReaderSt :=
  if st.off > 0 then
    let avail := st.pbuf.drop st.off
    let nn := min plen avail.length
    if nn = plen then ((acc ++ avail.take plen, none), { st with off := st.off + nn })
    else decReaderReadTail A L pub tag0 { st with off := 0 } (plen - nn) (acc ++ avail)
  else decReaderReadTail A L pub tag0 st plen acc

/-- `DecReader.Read(p)` with `plen = len(p)`. -/
def decReaderRead (A : AEAD) (L : Nat) (pub tag0 : List Nat)
    (st : DecReaderSt) (plen : Nat) : (List Nat × Option Err) × DecReaderSt :=
  match st.errSt with
  | some e => (([], some e), st)
  | none =>
    if st.firstRead then
      let ((d, e), st1) := decReaderReadFragment A L pub tag0 { st with firstRead := false } plen 0
      match e with
      | some e' => ((d, some e'), st1)
      | none => decReaderReadRest A L pub tag0 st1 (plen - d.length) d
    else decReaderReadRest A L pub tag0 st plen []

/-- The fresh `DecReader` produced by `Stream.DecryptReader` for upstream
contents `C`. -/
def decReaderInit (C : List Nat) : DecReaderSt :=
  ⟨C, 1, 0, true, false, none, [], 0⟩

/-- The `for` loop of `DecReader.WriteTo`: each round is
`readFragment(r.buffer, 1)` — whose destination is the whole buffer, hence
always the full-delivery branch of `readFragment` — followed by
`writeTo(w, r.buffer[:nn])`.  Both an `Open` failure and a downstream write
error are latched in `r.err` and stop the loop; the plaintext forwarded
before the error is kept (it has already been written to `w`).  A final
fragment (short read) ends the loop after its write. -/
def decReaderWTLoop (A : AEAD) (L : Nat) (pub tag0 : List Nat) (sink : Sink)
    (st : DecReaderSt) : (List Nat × Option Err) × DecReaderSt :=
  if L = 0 then (([], none), st)
  else if st.seq % 2 ^ 32 = 0 then
    (([], some .exceeded), { st with errSt := some .exceeded })
  else
    let V := [st.carry] ++ st.up.take (L + A.tagSize)
    let st1 := { st with up := st.up.drop (L + A.tagSize), seq := st.seq + 1 }
    if st.up.length < L + A.tagSize then
      if V.length < A.tagSize then
        (([], some .notAuthentic), { st1 with errSt := some .notAuthentic })
      else
        match decOpen A pub tag0 (st.seq % 2 ^ 32) 0x80 V with
        | none => (([], some .notAuthentic), { st1 with errSt := some .notAuthentic })
        | some pt =>
            let st2 := { st1 with closed := true }
            match sink pt with
            | some e => (([], some e), { st2 with errSt := some e })
            | none => ((pt, none), st2)
    else
      match decOpen A pub tag0 (st.seq % 2 ^ 32) 0x00 (V.take (L + A.tagSize)) with
      | none => (([], some .notAuthentic), { st1 with errSt := some .notAuthentic })
      | some pt =>
          let st2 := { st1 with carry := (V.drop (L + A.tagSize)).headD 0 }
          match sink pt with
          | some e => (([], some e), { st2 with errSt := some e })
          | none =>
              let ((rest, e), st3) := decReaderWTLoop A L pub tag0 sink st2
              ((pt ++ rest, e), st3)
termination_by st.up.length
decreasing_by simp; omega

/-- The tail of `DecReader.WriteTo` after the first-read block: replay any
pending `plaintextBuffer[offset:]` (a downstream error here is latched and
`offset` left as is), then `io.EOF` if closed, else the fragment loop.
`acc` is the plaintext already written to `w` by the first-read block. -/
def decReaderWTFinish (A : AEAD) (L : Nat) (pub tag0 : List Nat) (sink : Sink)
    (st : DecReaderSt) (acc : List Nat) : (List Nat × Option Err) × DecReaderSt :=
  if st.off > 0 then
    match sink (st.pbuf.drop st.off) with
    | some e => ((acc, some e), { st with errSt := some e })
    | none =>
        if st.closed then ((acc ++ st.pbuf.drop st.off, some .eof), { st with off := 0 })
        else
          let ((rest, e), st2) := decReaderWTLoop A L pub tag0 sink { st with off := 0 }
          ((acc ++ st.pbuf.drop st.off ++ rest, e), st2)
  else if st.closed then ((acc, some .eof), st)
  else
    let ((rest, e), st2) := decReaderWTLoop A L pub tag0 sink st
    ((acc ++ rest, e), st2)

/-- `DecReader.WriteTo(w)`: replays a latched error; on the first read calls
`readFragment(r.buffer, 0)` — destination the whole buffer, hence the
full-delivery branch, so `plen` is anything `≥ bufSize` here — writes the
fragment to `w` (a write error at this point is returned *without* being
latched, as in the code), returns `(n, nil)` when that fragment was final,
and otherwise continues with the pending-buffer replay and the loop.
Returns the plaintext accepted downstream and the final error. -/
def decReaderWriteTo (A : AEAD) (L : Nat) (pub tag0 : List Nat) (sink : Sink)
    (st : DecReaderSt) : (List Nat × Option Err) × DecReaderSt :=
  match st.errSt with
  | some e => (([], some e), st)
  | none =>
    if st.firstRead then
      let ((d, e), st1) := decReaderReadFragment A L pub tag0
        { st with firstRead := false } (1 + (L + A.tagSize)) 0
      if e = none ∨ e = some .eof then
        match sink d with
        | some ew => (([], some ew), st1)
        | none =>
            if st1.closed then ((d, none), st1)
            else decReaderWTFinish A L pub tag0 sink st1 d
      else (([], e), st1)
    else decReaderWTFinish A L pub tag0 sink st []

/-- The fragment reads performed by `DecReaderAt.ReadAt` through its
ephemeral `DecReader`: `io.CopyN(Discard, ·, k)` followed by
`readFrom(·, p)` open fragments one at a time, in order, until `need`
(`= k + len(p)`) plaintext bytes have been produced, the stream ends, or a
fragment fails; fragments past that point are never read.  Returns all
plaintext produced — including the fragments opened before a later failure —
and the first error (`io.EOF` after a final fragment that left the total
short). -/
def decReaderDrainN (A : AEAD) (L : Nat) (pub tag0 : List Nat) (s : Nat) (V : List Nat)
    (need : Nat) : List Nat × Option Err :=
  if L = 0 then ([], none)
  else if need = 0 then ([], none)
  else if s % 2 ^ 32 = 0 then ([], some .exceeded)
  else if V.length ≤ L + A.tagSize then
    if V.length < A.tagSize then ([], some .notAuthentic)
    else
      match decOpen A pub tag0 (s % 2 ^ 32) 0x80 V with
      | none => ([], some .notAuthentic)
      | some pt => (pt, some .eof)
  else
    match decOpen A pub tag0 (s % 2 ^ 32) 0x00 (V.take (L + A.tagSize)) with
    | none => ([], some .notAuthentic)
    | some pt =>
        if need ≤ pt.length then (pt, none)
        else
          let (rest, e) :=
            decReaderDrainN A L pub tag0 (s + 1) (V.drop (L + A.tagSize)) (need - pt.length)
          (pt ++ rest, e)
termination_by V.length
decreasing_by simp; omega

/-- `DecReaderAt.ReadAt(p, offset)` with the partial-output behaviour of the
code: reject a negative offset, `ErrExceeded` when `t + 1 > (1<<32) - 1`,
then run the ephemeral reader lazily (`decReaderDrainN`) for
`k + plen` bytes.  Fewer than `k` bytes means `io.CopyN` failed:
`(0, err)`.  Otherwise the destination gets `(got.drop k).take plen`; a
short fill keeps the error (`readFrom` semantics), a full fill returns
`nil` — `readFrom` clears `io.EOF` exactly when `n = len(p)`. -/
def decReadAtP (A : AEAD) (L : Nat) (pub tag0 : List Nat) (C : List Nat)
    (plen : Nat) (offset : Int) : List Nat × Option Err :=
  if offset < 0 then ([], some .ioErr)
  else
    let t := offset.toNat / L
    if t + 1 > 2 ^ 32 - 1 then ([], some .exceeded)
    else
      let k := offset.toNat % L
      let (got, e) := decReaderDrainN A L pub tag0 (1 + t)
        (C.drop (t * (L + A.tagSize))) (k + plen)
      if got.length < k then ([], e)
      else
        let d := (got.drop k).take plen
        if d.length < plen then (d, e) else (d, none)

/-- A concrete toy AEAD used to evaluate the theorems on explicit inputs:
one tag byte, a checksum over nonce, payload, associated data and length. -/
def toyTag (n p a : List Nat) : Nat := (n.sum + p.sum + 3 * a.sum + p.length) % 256

/-- Toy `Seal`: append the checksum tag. -/
def toySeal (n p a : List Nat) : List Nat := p ++ [toyTag n p a]

/-- Toy `Open`: verify the checksum tag and strip it. -/
def toyOpen (n c a : List Nat) : Option (List Nat) :=
  if 1 ≤ c.length ∧ c.getLast? = some (toyTag n c.dropLast a) then some c.dropLast
  else none

/-- The toy AEAD packaged with its interface laws. -/
def toyAEAD : AEAD where
  nonceSize := 5
  tagSize := 1
  Seal := toySeal
  Open := toyOpen
  Open_Seal := by
    intro n p a
    simp [toySeal, toyOpen, List.dropLast_concat, List.getLast?_concat]
  Seal_length := by
    intro n p a
    simp [toySeal]
  Open_length := by
    intro n c a p h
    unfold toyOpen at h
    split at h
    · rename_i hc
      cases h
      simp [List.length_dropLast]
      omega
    · exact absurd h (by simp)

/-- A fragment accepted by some `AEAD.Open` call: the plaintext of a fragment
whose authentication succeeded. -/
def OpenedFrag (A : AEAD) (f : List Nat) : Prop :=
  ∃ non c h, A.Open non c h = some f

/-- A byte string lying contiguously inside some successfully opened
fragment. -/
def OpenedPiece (A : AEAD) (d : List Nat) : Prop :=
  ∃ f pre post, OpenedFrag A f ∧ f = pre ++ d ++ post

/-- A byte string that is a concatenation of pieces of successfully opened
fragments: every byte of it was produced by a successful `AEAD.Open`. -/
def AuthBytes (A : AEAD) (l : List Nat) : Prop :=
  ∃ ps : List (List Nat), l = ps.flatten ∧ ∀ d ∈ ps, OpenedPiece A d

/-- Invariant of a reachable `DecReader` state: `plaintextBuffer` holds a
successfully opened fragment (or is still empty). -/
def DecReaderInv (A : AEAD) (st : DecReaderSt) : Prop :=
  st.pbuf = [] ∨ OpenedFrag A st.pbuf

/-! ### Fragment-count arithmetic -/

lemma numFrags_pos (L : Nat) (hL : L ≠ 0) : ∀ n, 0 < numFrags L n := by
  intro n
  induction n using Nat.strong_induction_on with
  | _ n ih =>
    rw [numFrags.eq_def]
    split
    · omega
    · split
      · omega
      · have := ih (n - L) (by omega)
        omega

lemma numFrags_le (L K : Nat) (hL : L ≠ 0) (hK : 1 ≤ K) :
    ∀ n, n ≤ L * K → numFrags L n ≤ K := by
  intro n
  induction n using Nat.strong_induction_on generalizing K with
  | _ n ih =>
    intro hn
    rw [numFrags.eq_def]
    split
    · omega
    · split
      · omega
      · rename_i h1 h2
        have hK2 : 2 ≤ K := by nlinarith
        have hmul : L * (K - 1) + L = L * K := by
          cases K with
          | zero => omega
          | succ k => simp [Nat.mul_succ]
        have := ih (n - L) (by omega) (K := K - 1) (by omega) (by omega)
        omega

lemma numFrags_eq (L : Nat) (hL : L ≠ 0) :
    ∀ n, numFrags L n = if n ≠ 0 ∧ n % L = 0 then n / L else n / L + 1 := by
  intro n
  induction n using Nat.strong_induction_on with
  | _ n ih =>
    rw [numFrags.eq_def, if_neg hL]
    split
    · rename_i hle
      rcases Nat.lt_or_ge n L with h | h
      · have hcond : ¬(n ≠ 0 ∧ n % L = 0) := by
          rintro ⟨h0, hmod⟩
          rw [Nat.mod_eq_of_lt h] at hmod
          omega
        rw [if_neg hcond, Nat.div_eq_of_lt h]
      · have hnL : n = L := by omega
        rw [if_pos ⟨by omega, by simp [hnL]⟩, hnL, Nat.div_self (by omega)]
    · rename_i hgt
      rw [ih (n - L) (by omega)]
      have h1 : n - L ≠ 0 := by omega
      have hrw : n - L + L = n := by omega
      have hmod : (n - L) % L = n % L := by
        conv_rhs => rw [← hrw]
        rw [Nat.add_mod_right]
      have hdiv : (n - L) / L + 1 = n / L := by
        conv_rhs => rw [← hrw]
        rw [Nat.add_div_right _ (by omega)]
      split_ifs <;> omega

/-! ### Length of the fragment-wise ciphertext -/

lemma sealFrags_flatten_length (A : AEAD) (L : Nat) (pub tag0 : List Nat) (hL : L ≠ 0) :
    ∀ P : List Nat, ∀ s,
      ((sealFrags A L pub tag0 s P).flatten).length
        = P.length + numFrags L P.length * A.tagSize := by
  suffices h : ∀ (n : Nat) (P : List Nat), P.length = n → ∀ s : Nat,
      ((sealFrags A L pub tag0 s P).flatten).length
        = P.length + numFrags L P.length * A.tagSize by
    intro P s
    exact h P.length P rfl s
  intro n
  induction n using Nat.strong_induction_on with
  | _ n ih =>
    intro P hn s
    rw [sealFrags.eq_def, numFrags.eq_def, if_neg hL, if_neg hL]
    split
    · simp [A.Seal_length, encSeal]
    · rename_i hgt
      simp only [List.flatten_cons, List.length_append, A.Seal_length, encSeal,
        ih (P.drop L).length (by simp; omega) (P.drop L) rfl (s + 1)]
      simp
      ring_nf
      omega
/-! ### The push-encrypt adapter produces the fragment-wise ciphertext -/

lemma maxU32_add_one : maxU32 + 1 = 2 ^ 32 := by norm_num [maxU32]

lemma encWriterLoop_close_spec (A : AEAD) (L : Nat) (pub tag0 : List Nat) (hL : L ≠ 0) :
    ∀ (P : List Nat) (st : EncWriterSt) (n : Nat),
      st.closed = false → st.errSt = none →
      st.seq + numFrags L P.length ≤ maxU32 + 1 →
      ∃ stf stg,
        encWriterLoop A L pub tag0 okSink st P n = ((n + P.length, none), stf) ∧
        encWriterClose A pub tag0 okSink stf = (none, stg) ∧
        stg.out = st.out ++ (sealFrags A L pub tag0 st.seq P).flatten := by
  suffices h : ∀ (m : Nat) (P : List Nat), P.length = m → ∀ (st : EncWriterSt) (n : Nat),
      st.closed = false → st.errSt = none →
      st.seq + numFrags L P.length ≤ maxU32 + 1 →
      ∃ stf stg,
        encWriterLoop A L pub tag0 okSink st P n = ((n + P.length, none), stf) ∧
        encWriterClose A pub tag0 okSink stf = (none, stg) ∧
        stg.out = st.out ++ (sealFrags A L pub tag0 st.seq P).flatten by
    intro P st n
    exact h P.length P rfl st n
  intro m
  induction m using Nat.strong_induction_on with
  | _ m ih =>
    intro P hm st n hcl herr hbound
    rw [encWriterLoop.eq_def, if_neg hL, sealFrags.eq_def, if_neg hL]
    by_cases hle : P.length ≤ L
    · rw [if_pos hle, if_pos hle]
      have hclose : encWriterClose A pub tag0 okSink { st with buf := P } =
          (none,
            { st with
                buf := P
                closed := true
                errSt := none
                out := st.out ++ encSeal A pub tag0 st.seq 0x80 P }) := by
        simp [encWriterClose, encWriterCloseSeal, herr, hcl, okSink]
      exact ⟨_, _, rfl, hclose, by simp⟩
    · rw [if_neg hle, if_neg hle]
      have hfr : numFrags L P.length = 1 + numFrags L (P.length - L) := by
        rw [numFrags.eq_def, if_neg hL, if_neg hle]
      have hnfpos := numFrags_pos L hL (P.length - L)
      have hseq : ¬ st.seq = maxU32 := by omega
      rw [if_neg hseq]
      have hmax := maxU32_add_one
      have hmod : (st.seq + 1) % 2 ^ 32 = st.seq + 1 :=
        Nat.mod_eq_of_lt (by omega)
      simp only [okSink, hmod]
      obtain ⟨stf, stg, h1, h2, h3⟩ := ih (P.drop L).length (by simp; omega) (P.drop L) rfl
        { st with
            seq := st.seq + 1
            out := st.out ++ encSeal A pub tag0 st.seq 0x00 (P.take L) }
        (n + L) hcl herr (by simp only [List.length_drop]; omega)
      refine ⟨stf, stg, ?_, h2, ?_⟩
      · rw [h1]
        have harith : n + L + (P.drop L).length = n + P.length := by
          simp only [List.length_drop]; omega
        rw [harith]
      · rw [h3]
        simp [List.append_assoc]

lemma encryptWriterRun_eq (A : AEAD) (L : Nat) (pub ad P : List Nat) (hL : L ≠ 0)
    (hP : P.length ≤ L * maxU32) :
    encryptWriterRun A L pub ad P =
      .ok ((sealFrags A L pub (tagZero A pub ad) 1 P).flatten) := by
  have hm := numFrags_le L maxU32 hL (by norm_num [maxU32]) P.length hP
  obtain ⟨stf, stg, h1, h2, h3⟩ :=
    encWriterLoop_close_spec A L pub (tagZero A pub ad) hL P
      ⟨1, [], [], false, none⟩ 0 rfl rfl (by simp; omega)
  unfold encryptWriterRun
  have hwrite : encWriterWrite A L pub (tagZero A pub ad) okSink ⟨1, [], [], false, none⟩ P
      = .ret (encWriterLoop A L pub (tagZero A pub ad) okSink ⟨1, [], [], false, none⟩ P 0) := by
    unfold encWriterWrite
    simp
  rw [hwrite]
  simp only [h1, h2]
  simp [h3]

/-! ### The pull-encrypt adapter produces the fragment-wise ciphertext -/

lemma encReaderDrain_eq (A : AEAD) (L : Nat) (pub tag0 : List Nat) (hL : L ≠ 0) :
    ∀ (P : List Nat) (s : Nat), 1 ≤ s → s + numFrags L P.length ≤ maxU32 + 1 →
      encReaderDrain A L pub tag0 s P = .ok ((sealFrags A L pub tag0 s P).flatten) := by
  suffices h : ∀ (m : Nat) (P : List Nat), P.length = m → ∀ s : Nat, 1 ≤ s →
      s + numFrags L P.length ≤ maxU32 + 1 →
      encReaderDrain A L pub tag0 s P = .ok ((sealFrags A L pub tag0 s P).flatten) by
    intro P s
    exact h P.length P rfl s
  intro m
  induction m using Nat.strong_induction_on with
  | _ m ih =>
    intro P hm s hs hbound
    have hnf := numFrags_pos L hL P.length
    have hmax := maxU32_add_one
    have hsmod : s % 2 ^ 32 = s := Nat.mod_eq_of_lt (by omega)
    rw [encReaderDrain.eq_def, if_neg hL, sealFrags.eq_def, if_neg hL, hsmod,
      if_neg (by omega : ¬ s = 0)]
    by_cases hle : P.length ≤ L
    · rw [if_pos hle, if_pos hle]
      simp
    · rw [if_neg hle, if_neg hle]
      have hfr : numFrags L P.length = 1 + numFrags L (P.length - L) := by
        rw [numFrags.eq_def, if_neg hL, if_neg hle]
      rw [ih (P.drop L).length (by simp; omega) (P.drop L) rfl (s + 1) (by omega)
        (by simp only [List.length_drop]; omega)]
      simp

/-! ### The pull-decrypt adapter inverts the fragment-wise ciphertext -/

lemma decReaderDrain_sealFrags (A : AEAD) (L : Nat) (pub tag0 : List Nat) (hL : L ≠ 0) :
    ∀ (P : List Nat) (s : Nat), 1 ≤ s → s + numFrags L P.length ≤ maxU32 + 1 →
      decReaderDrain A L pub tag0 s ((sealFrags A L pub tag0 s P).flatten) = .ok P := by
  suffices h : ∀ (m : Nat) (P : List Nat), P.length = m → ∀ s : Nat, 1 ≤ s →
      s + numFrags L P.length ≤ maxU32 + 1 →
      decReaderDrain A L pub tag0 s ((sealFrags A L pub tag0 s P).flatten) = .ok P by
    intro P s
    exact h P.length P rfl s
  intro m
  induction m using Nat.strong_induction_on with
  | _ m ih =>
    intro P hm s hs hbound
    have hnf := numFrags_pos L hL P.length
    have hmax := maxU32_add_one
    have hsmod : s % 2 ^ 32 = s := Nat.mod_eq_of_lt (by omega)
    rw [sealFrags.eq_def, if_neg hL]
    by_cases hle : P.length ≤ L
    · rw [if_pos hle]
      simp only [List.flatten_cons, List.flatten_nil, List.append_nil]
      have hlen : (encSeal A pub tag0 s 0x80 P).length = P.length + A.tagSize :=
        A.Seal_length _ _ _
      rw [decReaderDrain.eq_def, if_neg hL, hsmod, if_neg (by omega : ¬ s = 0),
        if_pos (by omega), if_neg (by omega)]
      simp [decOpen, encSeal, A.Open_Seal]
    · rw [if_neg hle]
      have hfr : numFrags L P.length = 1 + numFrags L (P.length - L) := by
        rw [numFrags.eq_def, if_neg hL, if_neg hle]
      simp only [List.flatten_cons]
      have hc1 : (encSeal A pub tag0 s 0x00 (P.take L)).length = L + A.tagSize := by
        simp only [encSeal, A.Seal_length, List.length_take]
        omega
      have hrest : ((sealFrags A L pub tag0 (s + 1) (P.drop L)).flatten).length
          = (P.length - L) + numFrags L (P.length - L) * A.tagSize := by
        rw [sealFrags_flatten_length A L pub tag0 hL]
        simp
      have hnf2 := numFrags_pos L hL (P.length - L)
      rw [decReaderDrain.eq_def, if_neg hL, hsmod, if_neg (by omega : ¬ s = 0),
        if_neg (by simp only [List.length_append]; omega),
        List.take_left' hc1, List.drop_left' hc1]
      simp only [decOpen, encSeal, A.Open_Seal]
      rw [ih (P.drop L).length (by simp; omega) (P.drop L) rfl (s + 1) (by omega)
        (by simp only [List.length_drop]; omega)]
      simp [List.take_append_drop]

/-! ### The push-decrypt adapter inverts the fragment-wise ciphertext -/

lemma decWriterLoop_close_spec (A : AEAD) (L : Nat) (pub tag0 : List Nat) (hL : L ≠ 0) :
    ∀ (P : List Nat) (st : DecWriterSt) (n : Nat),
      st.closed = false → st.errSt = none →
      st.seq + numFrags L P.length ≤ maxU32 + 1 →
      ∃ stf stg,
        decWriterLoop A L pub tag0 okSink st ((sealFrags A L pub tag0 st.seq P).flatten) n
          = ((n + ((sealFrags A L pub tag0 st.seq P).flatten).length, none), stf) ∧
        decWriterClose A pub tag0 okSink stf = (none, stg) ∧
        stg.out = st.out ++ P := by
  suffices h : ∀ (m : Nat) (P : List Nat), P.length = m → ∀ (st : DecWriterSt) (n : Nat),
      st.closed = false → st.errSt = none →
      st.seq + numFrags L P.length ≤ maxU32 + 1 →
      ∃ stf stg,
        decWriterLoop A L pub tag0 okSink st ((sealFrags A L pub tag0 st.seq P).flatten) n
          = ((n + ((sealFrags A L pub tag0 st.seq P).flatten).length, none), stf) ∧
        decWriterClose A pub tag0 okSink stf = (none, stg) ∧
        stg.out = st.out ++ P by
    intro P st n
    exact h P.length P rfl st n
  intro m
  induction m using Nat.strong_induction_on with
  | _ m ih =>
    intro P hm st n hcl herr hbound
    rw [sealFrags.eq_def, if_neg hL]
    by_cases hle : P.length ≤ L
    · rw [if_pos hle]
      simp only [List.flatten_cons, List.flatten_nil, List.append_nil]
      have hlen : (encSeal A pub tag0 st.seq 0x80 P).length = P.length + A.tagSize :=
        A.Seal_length _ _ _
      rw [decWriterLoop.eq_def, if_neg hL, if_pos (by omega)]
      have hclose : decWriterClose A pub tag0 okSink
          { st with buf := encSeal A pub tag0 st.seq 0x80 P } =
          (none,
            { st with
                buf := encSeal A pub tag0 st.seq 0x80 P
                closed := true
                errSt := none
                out := st.out ++ P }) := by
        simp [decWriterClose, decWriterCloseOpen, herr, hcl, okSink, decOpen, encSeal,
          A.Open_Seal]
      exact ⟨_, _, rfl, hclose, by simp⟩
    · rw [if_neg hle]
      have hfr : numFrags L P.length = 1 + numFrags L (P.length - L) := by
        rw [numFrags.eq_def, if_neg hL, if_neg hle]
      have hnf2 := numFrags_pos L hL (P.length - L)
      have hmax := maxU32_add_one
      have hc1 : (encSeal A pub tag0 st.seq 0x00 (P.take L)).length = L + A.tagSize := by
        simp only [encSeal, A.Seal_length, List.length_take]
        omega
      have hrest : ((sealFrags A L pub tag0 (st.seq + 1) (P.drop L)).flatten).length
          = (P.length - L) + numFrags L (P.length - L) * A.tagSize := by
        rw [sealFrags_flatten_length A L pub tag0 hL]
        simp
      simp only [List.flatten_cons]
      rw [decWriterLoop.eq_def, if_neg hL,
        if_neg (by simp only [List.length_append]; omega),
        if_neg (by omega : ¬ st.seq = maxU32),
        List.take_left' hc1, List.drop_left' hc1]
      simp only [decOpen, encSeal, A.Open_Seal]
      have hmod : (st.seq + 1) % 2 ^ 32 = st.seq + 1 :=
        Nat.mod_eq_of_lt (by omega)
      simp only [okSink, hmod]
      obtain ⟨stf, stg, h1, h2, h3⟩ := ih (P.drop L).length (by simp; omega) (P.drop L) rfl
        { st with
            seq := st.seq + 1
            out := st.out ++ P.take L }
        (n + (L + A.tagSize)) hcl herr (by simp only [List.length_drop]; omega)
      dsimp only at h1 h3
      refine ⟨stf, stg, ?_, h2, ?_⟩
      · rw [h1]
        have harith : n + (L + A.tagSize)
              + ((sealFrags A L pub tag0 (st.seq + 1) (P.drop L)).flatten).length
            = n + ((encSeal A pub tag0 st.seq 0x00 (P.take L) : List Nat)
              ++ (sealFrags A L pub tag0 (st.seq + 1) (P.drop L)).flatten).length := by
          simp only [List.length_append, hc1]
          omega
        rw [harith]
        rfl
      · rw [h3]
        simp [List.append_assoc, List.take_append_drop]

lemma decryptWriterRun_eq (A : AEAD) (L : Nat) (pub ad P : List Nat) (hL : L ≠ 0)
    (hP : P.length ≤ L * maxU32) :
    decryptWriterRun A L pub ad ((sealFrags A L pub (tagZero A pub ad) 1 P).flatten)
      = .ok P := by
  have hm := numFrags_le L maxU32 hL (by norm_num [maxU32]) P.length hP
  obtain ⟨stf, stg, h1, h2, h3⟩ :=
    decWriterLoop_close_spec A L pub (tagZero A pub ad) hL P
      ⟨1, [], [], false, none⟩ 0 rfl rfl (by simp; omega)
  unfold decryptWriterRun
  have hwrite : decWriterWrite A L pub (tagZero A pub ad) okSink ⟨1, [], [], false, none⟩
      ((sealFrags A L pub (tagZero A pub ad) 1 P).flatten)
      = .ret (decWriterLoop A L pub (tagZero A pub ad) okSink ⟨1, [], [], false, none⟩
          ((sealFrags A L pub (tagZero A pub ad) 1 P).flatten) 0) := by
    unfold decWriterWrite
    simp
  rw [hwrite]
  simp only [h1, h2]
  simp [h3]

/-! ### Claim C4: the overhead formula -/

/-- Claim C4: for a stream with fragment size `L` and tag size `tau`,
`Overhead(len)` is `tau` when `len = 0`, `tau * (len / L + 1)` when
`len mod L ≠ 0`, and `tau * (len / L)` when `len > 0` is divisible by `L`;
it panics on a negative `len` or on `len > L * (2^32 - 1)`. -/
theorem overhead_spec (L tau : Nat) (len : Int) (hL : 1 ≤ L) :
    (0 ≤ len → len ≤ (L : Int) * (2 ^ 32 - 1) →
      Overhead L tau len = some (
        if len = 0 then (tau : Int)
        else if len % (L : Int) ≠ 0 then (tau : Int) * (len / (L : Int) + 1)
        else (tau : Int) * (len / (L : Int))))
    ∧ (len < 0 → Overhead L tau len = none)
    ∧ ((L : Int) * (2 ^ 32 - 1) < len → Overhead L tau len = none) := by
  have hL0 : (L : Int) ≠ 0 := by
    simp only [ne_eq, Int.natCast_eq_zero]
    omega
  have hmod : 0 ≤ len % (L : Int) := Int.emod_nonneg len hL0
  refine ⟨?_, ?_, ?_⟩
  · intro h0 hle
    simp only [Overhead]
    rw [if_neg (by omega), if_neg (by omega)]
    split_ifs with h1 h2 h3 <;>
      first
        | rfl
        | (exfalso; omega)
        | (congr 1; ring)
  · intro hneg
    simp only [Overhead]
    rw [if_pos hneg]
  · intro hbig
    simp only [Overhead]
    rw [if_neg (by omega), if_pos hbig]

/-- Witness for C4 at `L = 2`, `tau = 16`, `len = 5` (and the two panic
branches at `-1` and above the limit). -/
theorem overhead_spec_witness :
    Overhead 2 16 5 = some 48 ∧ Overhead 2 16 (-1) = none ∧
      Overhead 2 16 (2 * (2 ^ 32 - 1) + 1) = none := by
  obtain ⟨h1, h2, h3⟩ := overhead_spec 2 16 5 (by norm_num)
  obtain ⟨-, h4, -⟩ := overhead_spec 2 16 (-1) (by norm_num)
  obtain ⟨-, -, h5⟩ := overhead_spec 2 16 (2 * (2 ^ 32 - 1) + 1) (by norm_num)
  refine ⟨?_, h4 (by norm_num), h5 (by norm_num)⟩
  rw [h1 (by norm_num) (by norm_num)]
  norm_num

/-! ### Claim C7: the NewStream precondition -/

/-- Claim C7 counterexample: `NewStream` accepts an AEAD whose full nonce
length is 4 (the code checks `NonceSize() < 4`, not `< 5` as claimed), so
construction does not abort at `N_full = 4`. -/
theorem newStream_nonce4_cex : NewStream 4 1 = some (4, 1) := by
  simp [NewStream, MaxBufSize]

/-- Claim C7 (amended): `NewStream(aead, L)` aborts by panic if and only if
the AEAD's full nonce length is below 4 (not 5) or `L` lies outside
`[1, 2^24 - 1]`. -/
theorem newStream_abort_iff (nf : Nat) (L : Int) :
    NewStream nf L = none ↔ nf < 4 ∨ L < 1 ∨ (MaxBufSize : Int) < L := by
  unfold NewStream
  split_ifs with h1 h2 h3 <;> simp_all <;> omega

/-! ### Claim C1: the round trip across all four adapters -/

/-- Claim C1: for every AEAD, every fragment size `L ∈ [1, 2^24 - 1]`, every
public nonce, every associated data and every plaintext `P` of length at most
`L * (2^32 - 1)`, both encrypt adapters (push `EncWriter` and pull
`EncReader`) produce the same ciphertext `C`, and both decrypt adapters
(push `DecWriter` and pull `DecReader`) recover exactly `P` from `C` — all
four encrypt/decrypt pairings round-trip. -/
theorem round_trip_all_adapters (A : AEAD) (L : Nat) (pub ad P : List Nat)
    (hL : 1 ≤ L) (hLmax : L ≤ MaxBufSize) (hP : P.length ≤ L * (2 ^ 32 - 1)) :
    ∃ C, encryptWriterRun A L pub ad P = .ok C ∧
      encryptReaderRun A L pub ad P = .ok C ∧
      decryptWriterRun A L pub ad C = .ok P ∧
      decryptReaderRun A L pub ad C = .ok P := by
  have hL0 : L ≠ 0 := by omega
  have hP' : P.length ≤ L * maxU32 := hP
  have hm := numFrags_le L maxU32 hL0 (by norm_num [maxU32]) P.length hP'
  refine ⟨(sealFrags A L pub (tagZero A pub ad) 1 P).flatten, ?_, ?_, ?_, ?_⟩
  · exact encryptWriterRun_eq A L pub ad P hL0 hP'
  · exact encReaderDrain_eq A L pub (tagZero A pub ad) hL0 P 1 le_rfl (by omega)
  · exact decryptWriterRun_eq A L pub ad P hL0 hP'
  · exact decReaderDrain_sealFrags A L pub (tagZero A pub ad) hL0 P 1 le_rfl (by omega)

/-- Witness for C1 at the toy AEAD, `L = 2`, a three-byte plaintext. -/
theorem round_trip_all_adapters_witness :
    ∃ C, encryptWriterRun toyAEAD 2 [0] [1] [1, 2, 3] = .ok C ∧
      encryptReaderRun toyAEAD 2 [0] [1] [1, 2, 3] = .ok C ∧
      decryptWriterRun toyAEAD 2 [0] [1] C = .ok [1, 2, 3] ∧
      decryptReaderRun toyAEAD 2 [0] [1] C = .ok [1, 2, 3] :=
  round_trip_all_adapters toyAEAD 2 [0] [1] [1, 2, 3] (by norm_num)
    (by norm_num [MaxBufSize]) (by norm_num)

/-! ### Claim C5: the ciphertext length -/

/-- Claim C5 counterexample: for `L = 2`, tag size 1 and a plaintext of
exactly `L = 2` bytes, the ciphertext has 3 bytes, while the claimed formula
`|P| + ⌈(|P| + 1) / L⌉ · τ` yields `2 + ⌈3/2⌉ = 4` bytes: no empty final
fragment is emitted when the plaintext exactly fills the last fragment. -/
theorem ciphertext_length_cex :
    (encryptWriterRun toyAEAD 2 [0] [] [5, 6]).map List.length = .ok 3 ∧
      (2 + (2 + 1 + 2 - 1) / 2 * toyAEAD.tagSize : Nat) = 4 ∧ (3 : Nat) ≠ 4 := by
  refine ⟨?_, by norm_num [toyAEAD], by norm_num⟩
  rw [encryptWriterRun_eq toyAEAD 2 [0] [] [5, 6] (by norm_num) (by norm_num [maxU32])]
  have hlen := sealFrags_flatten_length toyAEAD 2 [0] (tagZero toyAEAD [0] [])
    (by norm_num) [5, 6] 1
  have hnf := numFrags_eq 2 (by norm_num) 2
  norm_num at hnf
  have ht : toyAEAD.tagSize = 1 := rfl
  simp [Except.map, hlen, hnf, ht]

/-- Claim C5 (amended): the ciphertext produced by either encrypt adapter has
length `|P| + τ * m` where `m` is the fragment count: `m = |P| / L` when
`|P|` is a positive multiple of `L` (no empty final fragment is emitted) and
`m = |P| / L + 1 = ⌈(|P| + 1) / L⌉` otherwise. -/
theorem ciphertext_length (A : AEAD) (L : Nat) (pub ad P : List Nat)
    (hL : 1 ≤ L) (hP : P.length ≤ L * (2 ^ 32 - 1)) :
    (encryptWriterRun A L pub ad P).map List.length
        = .ok (P.length + A.tagSize * numFrags L P.length) ∧
      (encryptReaderRun A L pub ad P).map List.length
        = .ok (P.length + A.tagSize * numFrags L P.length) ∧
      numFrags L P.length
        = if P.length ≠ 0 ∧ P.length % L = 0 then P.length / L
          else P.length / L + 1 := by
  have hL0 : L ≠ 0 := by omega
  have hP' : P.length ≤ L * maxU32 := hP
  have hm := numFrags_le L maxU32 hL0 (by norm_num [maxU32]) P.length hP'
  have hlen := sealFrags_flatten_length A L pub (tagZero A pub ad) hL0 P 1
  refine ⟨?_, ?_, numFrags_eq L hL0 P.length⟩
  · rw [encryptWriterRun_eq A L pub ad P hL0 hP']
    simp [Except.map, hlen, Nat.mul_comm]
  · rw [show encryptReaderRun A L pub ad P
        = encReaderDrain A L pub (tagZero A pub ad) 1 P from rfl]
    rw [encReaderDrain_eq A L pub (tagZero A pub ad) hL0 P 1 le_rfl (by omega)]
    simp [Except.map, hlen, Nat.mul_comm]

/-- Witness for the amended C5 at the toy AEAD, `L = 2`, `|P| = 3`. -/
theorem ciphertext_length_witness :
    (encryptWriterRun toyAEAD 2 [0] [] [5, 6, 7]).map List.length
        = .ok (3 + 1 * numFrags 2 3) ∧
      (encryptReaderRun toyAEAD 2 [0] [] [5, 6, 7]).map List.length
        = .ok (3 + 1 * numFrags 2 3) ∧
      numFrags 2 3 = if (3 : Nat) ≠ 0 ∧ 3 % 2 = 0 then 3 / 2 else 3 / 2 + 1 :=
  ciphertext_length toyAEAD 2 [0] [] [5, 6, 7] (by norm_num) (by norm_num)

/-! ### Claim C3: truncation resistance -/

lemma sealFrags_ne_nil (A : AEAD) (L : Nat) (pub tag0 : List Nat) (hL : L ≠ 0)
    (s : Nat) (P : List Nat) : sealFrags A L pub tag0 s P ≠ [] := by
  rw [sealFrags.eq_def, if_neg hL]
  split <;> simp

lemma sealFrags_dropLast_length (A : AEAD) (L : Nat) (pub tag0 : List Nat) (hL : L ≠ 0) :
    ∀ (P : List Nat) (s : Nat), L < P.length →
      (((sealFrags A L pub tag0 s P).dropLast).flatten).length
        = (numFrags L P.length - 1) * (L + A.tagSize) := by
  suffices h : ∀ (m : Nat) (P : List Nat), P.length = m → ∀ s : Nat, L < P.length →
      (((sealFrags A L pub tag0 s P).dropLast).flatten).length
        = (numFrags L P.length - 1) * (L + A.tagSize) by
    intro P s
    exact h P.length P rfl s
  intro m
  induction m using Nat.strong_induction_on with
  | _ m ih =>
    intro P hm s hgt
    have hfr : numFrags L P.length = 1 + numFrags L (P.length - L) := by
      rw [numFrags.eq_def, if_neg hL, if_neg (by omega)]
    have hc1 : (encSeal A pub tag0 s 0x00 (P.take L)).length = L + A.tagSize := by
      simp only [encSeal, A.Seal_length, List.length_take]
      omega
    rw [sealFrags.eq_def, if_neg hL, if_neg (by omega),
      List.dropLast_cons_of_ne_nil (sealFrags_ne_nil A L pub tag0 hL _ _)]
    by_cases h2 : (P.drop L).length ≤ L
    · have hinner : numFrags L (P.length - L) = 1 := by
        rw [numFrags.eq_def, if_neg hL, if_pos (by simp at h2; omega)]
      rw [sealFrags.eq_def, if_neg hL, if_pos h2]
      simp only [List.dropLast_single, List.flatten_cons, List.flatten_nil,
        List.append_nil, hc1, hfr, hinner]
      omega
    · have hgt2 : L < (P.drop L).length := by omega
      have hinner := ih (P.drop L).length (by simp; omega) (P.drop L) rfl (s + 1) hgt2
      have hfr2 : 1 ≤ numFrags L (P.length - L) := numFrags_pos L hL _
      simp only [List.flatten_cons, List.length_append, hc1, hinner, List.length_drop,
        hfr]
      have hk : numFrags L (P.length - L) - 1 + 1 = numFrags L (P.length - L) := by
        rcases Nat.lt_or_ge ((P.drop L).length) L with h | h
        · omega
        · have := numFrags_pos L hL (P.length - L)
          have h3 : numFrags L (P.length - L) = 1 + numFrags L (P.length - L - L) := by
            rw [numFrags.eq_def, if_neg hL, if_neg (by simp at hgt2; omega)]
          have := numFrags_pos L hL (P.length - L - L)
          omega
      calc L + A.tagSize + (numFrags L (P.length - L) - 1) * (L + A.tagSize)
          = (numFrags L (P.length - L) - 1 + 1) * (L + A.tagSize) := by
            rw [Nat.succ_mul]; omega
        _ = (1 + numFrags L (P.length - L) - 1) * (L + A.tagSize) := by rw [hk]; congr 1; omega

lemma decReaderDrain_truncated (A : AEAD) (L : Nat) (pub tag0 : List Nat) (hL : L ≠ 0) :
    ∀ (P : List Nat) (s : Nat), 1 ≤ s → L < P.length →
      s + numFrags L P.length ≤ maxU32 + 1 →
      decOpen A pub tag0 (s + numFrags L P.length - 2) 0x80
          (encSeal A pub tag0 (s + numFrags L P.length - 2) 0x00
            ((P.drop ((numFrags L P.length - 2) * L)).take L)) = none →
      decReaderDrain A L pub tag0 s (((sealFrags A L pub tag0 s P).dropLast).flatten)
        = .error .notAuthentic := by
  suffices h : ∀ (m : Nat) (P : List Nat), P.length = m → ∀ s : Nat, 1 ≤ s →
      L < P.length → s + numFrags L P.length ≤ maxU32 + 1 →
      decOpen A pub tag0 (s + numFrags L P.length - 2) 0x80
          (encSeal A pub tag0 (s + numFrags L P.length - 2) 0x00
            ((P.drop ((numFrags L P.length - 2) * L)).take L)) = none →
      decReaderDrain A L pub tag0 s (((sealFrags A L pub tag0 s P).dropLast).flatten)
        = .error .notAuthentic by
    intro P s
    exact h P.length P rfl s
  intro m
  induction m using Nat.strong_induction_on with
  | _ m ih =>
    intro P hm s hs hgt hbound hfail
    have hfr : numFrags L P.length = 1 + numFrags L (P.length - L) := by
      rw [numFrags.eq_def, if_neg hL, if_neg (by omega)]
    have hnf2 := numFrags_pos L hL (P.length - L)
    have hmax := maxU32_add_one
    have hsmod : s % 2 ^ 32 = s := Nat.mod_eq_of_lt (by omega)
    have hc1 : (encSeal A pub tag0 s 0x00 (P.take L)).length = L + A.tagSize := by
      simp only [encSeal, A.Seal_length, List.length_take]
      omega
    rw [sealFrags.eq_def, if_neg hL, if_neg (by omega),
      List.dropLast_cons_of_ne_nil (sealFrags_ne_nil A L pub tag0 hL _ _)]
    by_cases h2 : (P.drop L).length ≤ L
    · have hinner : numFrags L (P.length - L) = 1 := by
        rw [numFrags.eq_def, if_neg hL, if_pos (by simp at h2; omega)]
      have hm2 : numFrags L P.length = 2 := by omega
      rw [hm2] at hfail
      have he1 : s + 2 - 2 = s := by omega
      rw [he1] at hfail
      simp only [Nat.sub_self, Nat.zero_mul, List.drop_zero] at hfail
      rw [sealFrags.eq_def (P := P.drop L), if_neg hL, if_pos h2]
      simp only [List.dropLast_single, List.flatten_cons, List.flatten_nil,
        List.append_nil]
      rw [decReaderDrain.eq_def, if_neg hL, hsmod, if_neg (by omega : ¬ s = 0),
        if_pos (by omega), if_neg (by omega), hfail]
    · have hgt2 : L < (P.drop L).length := by omega
      have hlen := sealFrags_dropLast_length A L pub tag0 hL (P.drop L) (s + 1) hgt2
      have hfr2 : 2 ≤ numFrags L (P.length - L) := by
        have h3 : numFrags L (P.length - L) = 1 + numFrags L (P.length - L - L) := by
          rw [numFrags.eq_def, if_neg hL, if_neg (by simp at hgt2; omega)]
        have := numFrags_pos L hL (P.length - L - L)
        omega
      have hfail' : decOpen A pub tag0
          (s + 1 + numFrags L (P.drop L).length - 2) 0x80
          (encSeal A pub tag0 (s + 1 + numFrags L (P.drop L).length - 2) 0x00
            (((P.drop L).drop ((numFrags L (P.drop L).length - 2) * L)).take L))
          = none := by
        have hseqeq : s + 1 + numFrags L (P.drop L).length - 2
            = s + numFrags L P.length - 2 := by
          simp only [List.length_drop]
          omega
        have hdd : (P.drop L).drop ((numFrags L (P.drop L).length - 2) * L)
            = P.drop ((numFrags L P.length - 2) * L) := by
          rw [List.drop_drop]
          congr 1
          simp only [List.length_drop, hfr]
          have hk : numFrags L (P.length - L) - 2 + 1 = numFrags L (P.length - L) - 1 := by
            omega
          rw [show 1 + numFrags L (P.length - L) - 2 = numFrags L (P.length - L) - 1 by omega,
            ← hk, Nat.succ_mul]
          omega
        rw [hseqeq, hdd]
        exact hfail
      have hrec := ih (P.drop L).length (by simp; omega) (P.drop L) rfl (s + 1)
        (by omega) hgt2 (by simp only [List.length_drop]; omega) hfail'
      simp only [List.flatten_cons]
      rw [decReaderDrain.eq_def, if_neg hL, hsmod, if_neg (by omega : ¬ s = 0),
        if_neg (by
          simp only [List.length_append, hc1, hlen, List.length_drop]
          have : 1 ≤ (numFrags L (P.length - L) - 1) * (L + A.tagSize) := by
            have h4 : 1 ≤ L + A.tagSize := by omega
            have h5 : 1 ≤ numFrags L (P.length - L) - 1 := by omega
            calc 1 = 1 * 1 := by omega
              _ ≤ (numFrags L (P.length - L) - 1) * (L + A.tagSize) :=
                Nat.mul_le_mul h5 h4
          omega),
        List.take_left' hc1, List.drop_left' hc1]
      simp only [decOpen, encSeal, A.Open_Seal]
      rw [hrec]

lemma decWriterLoop_truncated (A : AEAD) (L : Nat) (pub tag0 : List Nat) (hL : L ≠ 0) :
    ∀ (P : List Nat) (st : DecWriterSt) (n : Nat),
      st.closed = false → st.errSt = none → L < P.length →
      st.seq + numFrags L P.length ≤ maxU32 + 1 →
      decOpen A pub tag0 (st.seq + numFrags L P.length - 2) 0x80
          (encSeal A pub tag0 (st.seq + numFrags L P.length - 2) 0x00
            ((P.drop ((numFrags L P.length - 2) * L)).take L)) = none →
      ∃ k stf, decWriterLoop A L pub tag0 okSink st
          (((sealFrags A L pub tag0 st.seq P).dropLast).flatten) n = ((k, none), stf) ∧
        decWriterClose A pub tag0 okSink stf = (some .notAuthentic,
          { stf with closed := true, errSt := some .notAuthentic }) := by
  suffices h : ∀ (m : Nat) (P : List Nat), P.length = m → ∀ (st : DecWriterSt) (n : Nat),
      st.closed = false → st.errSt = none → L < P.length →
      st.seq + numFrags L P.length ≤ maxU32 + 1 →
      decOpen A pub tag0 (st.seq + numFrags L P.length - 2) 0x80
          (encSeal A pub tag0 (st.seq + numFrags L P.length - 2) 0x00
            ((P.drop ((numFrags L P.length - 2) * L)).take L)) = none →
      ∃ k stf, decWriterLoop A L pub tag0 okSink st
          (((sealFrags A L pub tag0 st.seq P).dropLast).flatten) n = ((k, none), stf) ∧
        decWriterClose A pub tag0 okSink stf = (some .notAuthentic,
          { stf with closed := true, errSt := some .notAuthentic }) by
    intro P st n
    exact h P.length P rfl st n
  intro m
  induction m using Nat.strong_induction_on with
  | _ m ih =>
    intro P hm st n hcl herr hgt hbound hfail
    have hfr : numFrags L P.length = 1 + numFrags L (P.length - L) := by
      rw [numFrags.eq_def, if_neg hL, if_neg (by omega)]
    have hnf2 := numFrags_pos L hL (P.length - L)
    have hmax := maxU32_add_one
    have hc1 : (encSeal A pub tag0 st.seq 0x00 (P.take L)).length = L + A.tagSize := by
      simp only [encSeal, A.Seal_length, List.length_take]
      omega
    rw [sealFrags.eq_def, if_neg hL, if_neg (by omega),
      List.dropLast_cons_of_ne_nil (sealFrags_ne_nil A L pub tag0 hL _ _)]
    by_cases h2 : (P.drop L).length ≤ L
    · have hinner : numFrags L (P.length - L) = 1 := by
        rw [numFrags.eq_def, if_neg hL, if_pos (by simp at h2; omega)]
      have hm2 : numFrags L P.length = 2 := by omega
      rw [hm2] at hfail
      rw [show st.seq + 2 - 2 = st.seq by omega] at hfail
      simp only [Nat.sub_self, Nat.zero_mul, List.drop_zero] at hfail
      rw [sealFrags.eq_def (P := P.drop L), if_neg hL, if_pos h2]
      simp only [List.dropLast_single, List.flatten_cons, List.flatten_nil,
        List.append_nil]
      rw [decWriterLoop.eq_def, if_neg hL, if_pos (by omega)]
      refine ⟨_, _, rfl, ?_⟩
      unfold decWriterClose
      rw [if_pos (Or.inl herr)]
      unfold decWriterCloseOpen
      rw [if_neg (by simp [hcl])]
      simp only [hfail]
    · have hgt2 : L < (P.drop L).length := by omega
      have hlen := sealFrags_dropLast_length A L pub tag0 hL (P.drop L) (st.seq + 1) hgt2
      have hfr2 : 2 ≤ numFrags L (P.length - L) := by
        have h3 : numFrags L (P.length - L) = 1 + numFrags L (P.length - L - L) := by
          rw [numFrags.eq_def, if_neg hL, if_neg (by simp at hgt2; omega)]
        have := numFrags_pos L hL (P.length - L - L)
        omega
      have hfail' : decOpen A pub tag0
          (st.seq + 1 + numFrags L (P.drop L).length - 2) 0x80
          (encSeal A pub tag0 (st.seq + 1 + numFrags L (P.drop L).length - 2) 0x00
            (((P.drop L).drop ((numFrags L (P.drop L).length - 2) * L)).take L))
          = none := by
        have hseqeq : st.seq + 1 + numFrags L (P.drop L).length - 2
            = st.seq + numFrags L P.length - 2 := by
          simp only [List.length_drop]
          omega
        have hdd : (P.drop L).drop ((numFrags L (P.drop L).length - 2) * L)
            = P.drop ((numFrags L P.length - 2) * L) := by
          rw [List.drop_drop]
          congr 1
          simp only [List.length_drop, hfr]
          have hk : numFrags L (P.length - L) - 2 + 1 = numFrags L (P.length - L) - 1 := by
            omega
          rw [show 1 + numFrags L (P.length - L) - 2 = numFrags L (P.length - L) - 1 by omega,
            ← hk, Nat.succ_mul]
          omega
        rw [hseqeq, hdd]
        exact hfail
      have hmod : (st.seq + 1) % 2 ^ 32 = st.seq + 1 := Nat.mod_eq_of_lt (by omega)
      simp only [List.flatten_cons]
      rw [decWriterLoop.eq_def, if_neg hL,
        if_neg (by
          simp only [List.length_append, hc1, hlen, List.length_drop]
          have h4 : 1 ≤ L + A.tagSize := by omega
          have h5 : 1 ≤ numFrags L (P.length - L) - 1 := by omega
          have : 1 ≤ (numFrags L (P.length - L) - 1) * (L + A.tagSize) := by
            calc 1 = 1 * 1 := by omega
              _ ≤ (numFrags L (P.length - L) - 1) * (L + A.tagSize) :=
                Nat.mul_le_mul h5 h4
          omega),
        if_neg (by omega : ¬ st.seq = maxU32),
        List.take_left' hc1, List.drop_left' hc1]
      simp only [decOpen, encSeal, A.Open_Seal, okSink, hmod]
      obtain ⟨k, stf, h1, h2⟩ := ih (P.drop L).length (by simp; omega) (P.drop L) rfl
        { st with
            seq := st.seq + 1
            out := st.out ++ P.take L }
        (n + (L + A.tagSize)) hcl herr hgt2 (by simp only [List.length_drop]; omega)
        (by
          dsimp only
          exact hfail')
      dsimp only at h1
      exact ⟨k, stf, h1, h2⟩

/-- Claim C3: for a plaintext spanning at least two fragments, decrypting the
ciphertext prefix that drops the final fragment (so it ends on an
intermediate-fragment boundary) fails with `NotAuthentic` in both decrypt
adapters: the encoder sealed the last remaining fragment with flag `0x00`,
but at end-of-input the decoder opens it with flag `0x80`, and the AEAD
rejects it (the hypothesis `hfail` is that rejection at the one fragment
where the flags disagree). -/
theorem truncation_resistance (A : AEAD) (L : Nat) (pub ad P : List Nat)
    (hL : 1 ≤ L) (hm2 : L < P.length) (hP : P.length ≤ L * (2 ^ 32 - 1))
    (hfail : decOpen A pub (tagZero A pub ad) (numFrags L P.length - 1) 0x80
        (encSeal A pub (tagZero A pub ad) (numFrags L P.length - 1) 0x00
          ((P.drop ((numFrags L P.length - 2) * L)).take L)) = none) :
    decryptReaderRun A L pub ad
        (((sealFrags A L pub (tagZero A pub ad) 1 P).dropLast).flatten)
      = .error .notAuthentic ∧
    decryptWriterRun A L pub ad
        (((sealFrags A L pub (tagZero A pub ad) 1 P).dropLast).flatten)
      = .error .notAuthentic := by
  have hL0 : L ≠ 0 := by omega
  have hm := numFrags_le L maxU32 hL0 (by norm_num [maxU32]) P.length hP
  have hfail' : decOpen A pub (tagZero A pub ad) (1 + numFrags L P.length - 2) 0x80
      (encSeal A pub (tagZero A pub ad) (1 + numFrags L P.length - 2) 0x00
        ((P.drop ((numFrags L P.length - 2) * L)).take L)) = none := by
    have hnf := numFrags_pos L hL0 P.length
    rw [show 1 + numFrags L P.length - 2 = numFrags L P.length - 1 by omega]
    exact hfail
  constructor
  · exact decReaderDrain_truncated A L pub (tagZero A pub ad) hL0 P 1 le_rfl hm2
      (by omega) hfail'
  · obtain ⟨k, stf, h1, h2⟩ := decWriterLoop_truncated A L pub (tagZero A pub ad) hL0 P
      ⟨1, [], [], false, none⟩ 0 rfl rfl hm2 (by simp; omega) hfail'
    unfold decryptWriterRun
    have hwrite : decWriterWrite A L pub (tagZero A pub ad) okSink ⟨1, [], [], false, none⟩
        (((sealFrags A L pub (tagZero A pub ad) 1 P).dropLast).flatten)
        = .ret (decWriterLoop A L pub (tagZero A pub ad) okSink ⟨1, [], [], false, none⟩
            (((sealFrags A L pub (tagZero A pub ad) 1 P).dropLast).flatten) 0) := by
      unfold decWriterWrite
      simp
    rw [hwrite]
    simp only [h1, h2]

/-- Witness for C3 at the toy AEAD, `L = 2`, `P = [1, 2, 3]` (two fragments):
dropping the final fragment makes decryption fail with `NotAuthentic`. -/
theorem truncation_resistance_witness :
    decryptReaderRun toyAEAD 2 [0] [4]
        (((sealFrags toyAEAD 2 [0] (tagZero toyAEAD [0] [4]) 1 [1, 2, 3]).dropLast).flatten)
      = .error .notAuthentic ∧
    decryptWriterRun toyAEAD 2 [0] [4]
        (((sealFrags toyAEAD 2 [0] (tagZero toyAEAD [0] [4]) 1 [1, 2, 3]).dropLast).flatten)
      = .error .notAuthentic :=
  truncation_resistance toyAEAD 2 [0] [4] [1, 2, 3] (by norm_num) (by norm_num)
    (by norm_num)
    (by
      have hn : numFrags 2 ([1, 2, 3] : List Nat).length = 2 := by
        rw [numFrags_eq 2 (by norm_num)]
        norm_num
      rw [hn]
      decide)

/-! ### Claim C8: random-access decryption -/

lemma offset_frag_lt (L n o : Nat) (hL : L ≠ 0) (ho : o ≤ n)
    (hx : o < n ∨ n % L ≠ 0) : o / L < numFrags L n := by
  rw [numFrags_eq L hL n]
  by_cases hmod : n ≠ 0 ∧ n % L = 0
  · rw [if_pos hmod]
    rcases hx with h | h
    · refine (Nat.div_lt_iff_lt_mul (by omega)).2 ?_
      have := Nat.div_mul_cancel (Nat.dvd_of_mod_eq_zero hmod.2)
      omega
    · exact absurd hmod.2 h
  · rw [if_neg hmod]
    have h1 : o / L ≤ n / L := Nat.div_le_div_right ho
    omega

lemma sealFrags_flatten_drop (A : AEAD) (L : Nat) (pub tag0 : List Nat) (hL : L ≠ 0) :
    ∀ (t : Nat) (P : List Nat) (s : Nat), t < numFrags L P.length →
      ((sealFrags A L pub tag0 s P).flatten).drop (t * (L + A.tagSize))
        = (sealFrags A L pub tag0 (s + t) (P.drop (t * L))).flatten := by
  intro t
  induction t with
  | zero => simp
  | succ t ih =>
    intro P s ht
    have hgt : L < P.length := by
      by_contra h
      have : numFrags L P.length = 1 := by
        rw [numFrags.eq_def, if_neg hL, if_pos (by omega)]
      omega
    have hfr : numFrags L P.length = 1 + numFrags L (P.length - L) := by
      rw [numFrags.eq_def, if_neg hL, if_neg (by omega)]
    have hc1 : (encSeal A pub tag0 s 0x00 (P.take L)).length = L + A.tagSize := by
      simp only [encSeal, A.Seal_length, List.length_take]
      omega
    rw [sealFrags.eq_def, if_neg hL, if_neg (by omega)]
    simp only [List.flatten_cons]
    rw [show (t + 1) * (L + A.tagSize) = (L + A.tagSize) + t * (L + A.tagSize) by ring,
      ← List.drop_drop, List.drop_left' hc1]
    rw [ih (P.drop L) (s + 1) (by simp only [List.length_drop]; omega)]
    have h1 : s + 1 + t = s + (t + 1) := by omega
    have h2 : (P.drop L).drop (t * L) = P.drop ((t + 1) * L) := by
      rw [List.drop_drop]
      congr 1
      ring
    rw [h1, h2]

/-- Claim C8 counterexample: the claim promises success with no error for
every `offset ∈ [0, |P|]`, and simultaneously `ErrExceeded` whenever the
fragment index `t = offset / L` satisfies `t + 1 > 2^32 - 1`.  At
`L = 1`, `|P| = 2^32 - 1` and `offset = |P|` both apply: the code takes the
`ErrExceeded` branch (before ever reading), so the no-error promise is
broken at that boundary. -/
theorem read_at_cex :
    encryptWriterRun toyAEAD 1 [0] [] (List.replicate (2 ^ 32 - 1) 0)
        = .ok ((sealFrags toyAEAD 1 [0] (tagZero toyAEAD [0] []) 1
            (List.replicate (2 ^ 32 - 1) 0)).flatten) ∧
    ((2 ^ 32 - 1 : Int)).toNat ≤ (List.replicate (2 ^ 32 - 1) (0 : Nat)).length ∧
    decryptReaderAtRun toyAEAD 1 [0] []
        ((sealFrags toyAEAD 1 [0] (tagZero toyAEAD [0] []) 1
            (List.replicate (2 ^ 32 - 1) 0)).flatten) 0 (2 ^ 32 - 1)
      = ([], some .exceeded) := by
  have h3 : decryptReaderAtRun toyAEAD 1 [0] []
      ((sealFrags toyAEAD 1 [0] (tagZero toyAEAD [0] []) 1
          (List.replicate (2 ^ 32 - 1) 0)).flatten) 0 (2 ^ 32 - 1)
      = ([], some .exceeded) := by decide
  have h2 : ((2 ^ 32 - 1 : Int)).toNat ≤ (List.replicate (2 ^ 32 - 1) (0 : Nat)).length := by
    rw [List.length_replicate]
    norm_num
  exact ⟨encryptWriterRun_eq toyAEAD 1 [0] [] (List.replicate (2 ^ 32 - 1) 0) (by norm_num)
      (by rw [List.length_replicate]; norm_num [maxU32]), h2, h3⟩

/-- Arithmetic helper for `read_at_spec`: after removing `t` full fragments
from a plaintext of length at most `L * maxU32`, the remainder fits in the
`maxU32 - t` remaining sequence numbers. -/
lemma drop_fits (L n t : Nat) (hn : n ≤ L * maxU32) (ht : t < maxU32) :
    n - t * L ≤ L * (maxU32 - t) := by
  have h1 : L * (maxU32 - t) + L * t = L * maxU32 := by
    rw [← Nat.mul_add]
    congr 1
    omega
  have h2 : t * L = L * t := Nat.mul_comm _ _
  omega

/-- Claim C8 (amended): over a well-formed ciphertext `C` of plaintext `P`,
`ReadAt` with a destination of `plen` bytes at `offset ∈ [0, |P|]` with
`offset < L * (2^32 - 1)` and `plen ≤ |P| - offset` returns exactly
`P[offset .. offset + plen]` with no error; a negative offset is rejected
with an error; an offset whose fragment index `t = offset / L` satisfies
`t + 1 > 2^32 - 1` (i.e. `offset ≥ L * (2^32 - 1)`, possible only at the
very end of a maximum-length plaintext) yields `ErrExceeded`. -/
theorem read_at_spec (A : AEAD) (L : Nat) (pub ad P C : List Nat)
    (hL : 1 ≤ L) (hP : P.length ≤ L * (2 ^ 32 - 1))
    (hC : C = (sealFrags A L pub (tagZero A pub ad) 1 P).flatten) :
    (∀ (offset plen : Nat), offset ≤ P.length → offset < L * (2 ^ 32 - 1) →
        plen ≤ P.length - offset →
        decryptReaderAtRun A L pub ad C plen (offset : Int)
          = ((P.drop offset).take plen, none))
    ∧ (∀ (offset : Int) (plen : Nat), offset < 0 →
        decryptReaderAtRun A L pub ad C plen offset = ([], some .ioErr))
    ∧ (∀ (offset plen : Nat), 2 ^ 32 - 1 < offset / L + 1 →
        decryptReaderAtRun A L pub ad C plen (offset : Int)
          = ([], some .exceeded)) := by
  have hL0 : L ≠ 0 := by omega
  refine ⟨?_, ?_, ?_⟩
  · intro offset plen hoP hoLim hplen
    have ht : offset / L < 2 ^ 32 - 1 :=
      (Nat.div_lt_iff_lt_mul (by omega)).2 (by omega)
    have hdm := Nat.div_add_mod offset L
    simp only [decryptReaderAtRun, decReadAt, Int.toNat_natCast]
    rw [if_neg (by omega : ¬ (offset : Int) < 0),
      if_neg (by omega : ¬ offset / L + 1 > 2 ^ 32 - 1)]
    by_cases hk : offset % L + plen = 0
    · rw [if_pos hk]
      have hplen0 : plen = 0 := by omega
      simp [hplen0]
    · rw [if_neg hk]
      have htlt : offset / L < numFrags L P.length := by
        apply offset_frag_lt L P.length offset hL0 hoP
        rcases Nat.lt_or_ge offset P.length with h | h
        · exact Or.inl h
        · have hoeq : offset = P.length := by omega
          have hplen0 : plen = 0 := by omega
          right
          rw [← hoeq]
          omega
      have hm := numFrags_le L maxU32 hL0 (by norm_num [maxU32]) P.length hP
      have hcomm : offset / L * L = L * (offset / L) := Nat.mul_comm _ _
      have hmulsub : L * (maxU32 - offset / L) + L * (offset / L) = L * maxU32 := by
        rw [← Nat.mul_add]
        congr 1
        have : offset / L ≤ maxU32 := by simp only [maxU32]; omega
        omega
      have hPmax : P.length ≤ L * maxU32 := hP
      have htm : offset / L < maxU32 := ht
      have hdropbound : (P.drop (offset / L * L)).length ≤ L * (maxU32 - offset / L) := by
        rw [List.length_drop]
        exact drop_fits L P.length (offset / L) hPmax htm
      have hnfb := numFrags_le L (maxU32 - offset / L) hL0 (by omega)
        (P.drop (offset / L * L)).length hdropbound
      have hseqb : 1 + offset / L + numFrags L (P.drop (offset / L * L)).length
          ≤ maxU32 + 1 := by omega
      rw [hC, sealFrags_flatten_drop A L pub (tagZero A pub ad) hL0 (offset / L) P 1 htlt,
        decReaderDrain_sealFrags A L pub (tagZero A pub ad) hL0 (P.drop (offset / L * L))
          (1 + offset / L) (Nat.le_add_right 1 (offset / L)) hseqb]
      dsimp only
      rw [if_neg (by simp only [List.length_drop]; omega)]
      have hsplice : List.drop (offset % L) (List.drop (offset / L * L) P)
          = List.drop offset P := by
        rw [List.drop_drop]
        congr 1
        omega
      simp only [hsplice]
      have hdlen : (((P.drop offset).take plen).length) = plen := by
        simp only [List.length_take, List.length_drop]
        omega
      rw [if_neg (by omega : ¬ ((P.drop offset).take plen).length < plen)]
  · intro offset plen hneg
    simp only [decryptReaderAtRun, decReadAt]
    rw [if_pos hneg]
  · intro offset plen hbig
    simp only [decryptReaderAtRun, decReadAt, Int.toNat_natCast]
    rw [if_neg (by omega : ¬ (offset : Int) < 0),
      if_pos (by omega : offset / L + 1 > 2 ^ 32 - 1)]

/-- Witness for the amended C8 at the toy AEAD, `L = 2`, `P = [1,2,3,4,5]`:
reading 3 bytes at offset 1 yields `[2, 3, 4]` with no error, a negative
offset errors, and a huge offset yields `ErrExceeded`. -/
theorem read_at_spec_witness :
    decryptReaderAtRun toyAEAD 2 [0] [9]
        ((sealFrags toyAEAD 2 [0] (tagZero toyAEAD [0] [9]) 1 [1, 2, 3, 4, 5]).flatten)
        3 ((1 : Nat) : Int)
      = (([1, 2, 3, 4, 5].drop 1).take 3, none) ∧
    decryptReaderAtRun toyAEAD 2 [0] [9]
        ((sealFrags toyAEAD 2 [0] (tagZero toyAEAD [0] [9]) 1 [1, 2, 3, 4, 5]).flatten)
        2 (-1)
      = ([], some .ioErr) ∧
    decryptReaderAtRun toyAEAD 2 [0] [9]
        ((sealFrags toyAEAD 2 [0] (tagZero toyAEAD [0] [9]) 1 [1, 2, 3, 4, 5]).flatten)
        0 ((2 * 2 ^ 32 : Nat) : Int)
      = ([], some .exceeded) := by
  obtain ⟨h1, h2, h3⟩ := read_at_spec toyAEAD 2 [0] [9] [1, 2, 3, 4, 5]
    ((sealFrags toyAEAD 2 [0] (tagZero toyAEAD [0] [9]) 1 [1, 2, 3, 4, 5]).flatten)
    (by norm_num) (by norm_num) rfl
  exact ⟨h1 1 3 (by norm_num) (by norm_num) (by norm_num), h2 (-1) 2 (by norm_num),
    h3 (2 * 2 ^ 32) 0 (by norm_num)⟩

/-! ### Claim C6: sequence-number exhaustion -/

/-- Claim C6: for an `EncWriter` at `seqNum = 2^32 - 1` (not closed, no
latched error) with buffered bytes `B`: (a) a `Write` that would seal a
pre-close fragment returns and latches `ErrExceeded`; (b) so does a
`WriteByte` on a full buffer; (c) so does a `ReadFrom` that reads a full
look-ahead window; (d) `Close` nevertheless succeeds — also with the latched
`ErrExceeded` — sealing the buffered bytes as the final fragment under
sequence value `2^32 - 1`; and (e) that final fragment decrypts back to the
buffered bytes when the decoder reaches it at sequence value `2^32 - 1`. -/
theorem exhaustion_close_still_works (A : AEAD) (L : Nat) (pub tag0 B out0 : List Nat)
    (hL : 1 ≤ L) (hB : B.length ≤ L) :
    (∀ p : List Nat, L < B.length + p.length →
      ∃ k st', encWriterWrite A L pub tag0 okSink ⟨maxU32, B, out0, false, none⟩ p
          = .ret ((k, some .exceeded), st') ∧ st'.errSt = some .exceeded)
    ∧ (B.length = L → ∀ b : Nat, ∃ st',
        encWriterWriteByte A L pub tag0 okSink ⟨maxU32, B, out0, false, none⟩ b
          = .ret (some .exceeded, st') ∧ st'.errSt = some .exceeded)
    ∧ (∀ U : List Nat, L + 1 ≤ U.length → ∃ st',
        encWriterReadFrom A L pub tag0 okSink ⟨maxU32, B, out0, false, none⟩ U
          = .ret ((0, some .exceeded), st') ∧ st'.errSt = some .exceeded)
    ∧ (∀ e0 : Option Err, (e0 = none ∨ e0 = some .exceeded) →
        encWriterClose A pub tag0 okSink ⟨maxU32, B, out0, false, e0⟩
          = (none, ⟨maxU32, B, out0 ++ encSeal A pub tag0 maxU32 0x80 B, true, none⟩))
    ∧ decReaderDrain A L pub tag0 maxU32 (encSeal A pub tag0 maxU32 0x80 B)
        = .ok B := by
  have hL0 : L ≠ 0 := by omega
  have hmaxmod : maxU32 % 2 ^ 32 = maxU32 := Nat.mod_eq_of_lt (by norm_num [maxU32])
  refine ⟨?_, ?_, ?_, ?_, ?_⟩
  · intro p hp
    unfold encWriterWrite
    by_cases hBe : B.length > 0
    · dsimp only
      rw [if_neg (by simp)]
      rw [if_pos hBe]
      rw [if_neg (by omega : ¬ min p.length (L - B.length) = p.length)]
      rw [if_pos rfl]
      exact ⟨_, _, rfl, rfl⟩
    · dsimp only
      rw [if_neg (by simp), if_neg hBe]
      rw [encWriterLoop.eq_def, if_neg hL0, if_neg (by omega), if_pos rfl]
      exact ⟨_, _, rfl, rfl⟩
  · intro hBL b
    unfold encWriterWriteByte
    dsimp only
    rw [if_neg (by simp), if_neg (by omega), if_pos rfl]
    exact ⟨_, rfl, rfl⟩
  · intro U hU
    unfold encWriterReadFrom
    dsimp only
    rw [if_neg (by simp), if_neg (by omega : ¬ L = 0), if_neg (by omega), if_pos rfl]
    exact ⟨_, rfl, rfl⟩
  · intro e0 he0
    unfold encWriterClose
    rw [if_pos (by dsimp only; exact he0)]
    unfold encWriterCloseSeal
    rw [if_neg (by simp)]
    rfl
  · have hlen : (encSeal A pub tag0 maxU32 0x80 B).length = B.length + A.tagSize :=
      A.Seal_length _ _ _
    rw [decReaderDrain.eq_def, if_neg hL0, hmaxmod,
      if_neg (by norm_num [maxU32] : ¬ maxU32 = 0),
      if_pos (by omega), if_neg (by omega)]
    simp [decOpen, encSeal, A.Open_Seal]

/-- Witness for C6 at the toy AEAD, `L = 2`, one buffered byte. -/
theorem exhaustion_close_still_works_witness :
    (∃ k st', encWriterWrite toyAEAD 2 [0] [0] okSink ⟨maxU32, [9], [], false, none⟩ [1, 2]
        = .ret ((k, some .exceeded), st') ∧ st'.errSt = some .exceeded)
    ∧ (∃ st', encWriterReadFrom toyAEAD 2 [0] [0] okSink ⟨maxU32, [9], [], false, none⟩
          [1, 2, 3] = .ret ((0, some .exceeded), st') ∧ st'.errSt = some .exceeded)
    ∧ encWriterClose toyAEAD [0] [0] okSink ⟨maxU32, [9], [], false, some .exceeded⟩
        = (none, ⟨maxU32, [9], [] ++ encSeal toyAEAD [0] [0] maxU32 0x80 [9], true, none⟩)
    ∧ decReaderDrain toyAEAD 2 [0] [0] maxU32 (encSeal toyAEAD [0] [0] maxU32 0x80 [9])
        = .ok [9] := by
  obtain ⟨h1, h2, h3, h4, h5⟩ :=
    exhaustion_close_still_works toyAEAD 2 [0] [0] [9] [] (by norm_num) (by norm_num)
  exact ⟨h1 [1, 2] (by norm_num), h3 [1, 2, 3] (by norm_num),
    h4 (some .exceeded) (Or.inr rfl), h5⟩

/-! ### Claim C9: write after close -/

/-- Claim C9 counterexample: on an `EncWriter` with a latched downstream
error, `Close` returns that error without setting the closed flag, and a
subsequent `Write` returns the latched error instead of panicking — so
"any Write after Close has returned panics" fails in that state. -/
theorem write_after_close_cex :
    encWriterClose toyAEAD [0] [0] okSink ⟨1, [], [], false, some .ioErr⟩
        = (some .ioErr, ⟨1, [], [], false, some .ioErr⟩) ∧
    encWriterWrite toyAEAD 2 [0] [0] okSink ⟨1, [], [], false, some .ioErr⟩ [5]
        = .ret ((0, some .ioErr), ⟨1, [], [], false, some .ioErr⟩) := by
  constructor
  · rfl
  · rfl

/-- Claim C9 (amended): after any `Close` call made while no error other
than `ErrExceeded` was latched (the only case in which `Close` marks the
writer closed — in particular after any successful `Close`), every
subsequent `Write`, `WriteByte` and `ReadFrom` on an `EncWriter` or
`DecWriter` panics, for all argument values. -/
theorem write_after_close_panics (A : AEAD) (L : Nat) (pub tag0 : List Nat) (sink : Sink)
    (stE : EncWriterSt) (stD : DecWriterSt)
    (hE : stE.errSt = none ∨ stE.errSt = some .exceeded)
    (hD : stD.errSt = none ∨ stD.errSt = some .exceeded) :
    (∀ p, encWriterWrite A L pub tag0 sink (encWriterClose A pub tag0 sink stE).2 p
        = .panicked)
    ∧ (∀ b, encWriterWriteByte A L pub tag0 sink (encWriterClose A pub tag0 sink stE).2 b
        = .panicked)
    ∧ (∀ U, encWriterReadFrom A L pub tag0 sink (encWriterClose A pub tag0 sink stE).2 U
        = .panicked)
    ∧ (∀ p, decWriterWrite A L pub tag0 sink (decWriterClose A pub tag0 sink stD).2 p
        = .panicked)
    ∧ (∀ b, decWriterWriteByte A L pub tag0 sink (decWriterClose A pub tag0 sink stD).2 b
        = .panicked)
    ∧ (∀ U, decWriterReadFrom A L pub tag0 sink (decWriterClose A pub tag0 sink stD).2 U
        = .panicked) := by
  have hEc : (encWriterClose A pub tag0 sink stE).2.closed = true := by
    unfold encWriterClose
    rw [if_pos hE]
    unfold encWriterCloseSeal
    by_cases hc : stE.closed
    · rw [if_pos hc]
      exact hc
    · rw [if_neg hc]
      cases hsp : sink (encSeal A pub tag0 stE.seq 0x80 stE.buf) <;> simp [hsp]
  have hDc : (decWriterClose A pub tag0 sink stD).2.closed = true := by
    unfold decWriterClose
    rw [if_pos hD]
    unfold decWriterCloseOpen
    by_cases hc : stD.closed
    · rw [if_pos hc]
      exact hc
    · rw [if_neg hc]
      cases hdo : decOpen A pub tag0 stD.seq 0x80 stD.buf with
      | none => rfl
      | some pt => cases hsp : sink pt <;> simp [hsp]
  refine ⟨?_, ?_, ?_, ?_, ?_, ?_⟩
  · intro p
    unfold encWriterWrite
    rw [if_pos hEc]
  · intro b
    unfold encWriterWriteByte
    rw [if_pos hEc]
  · intro U
    unfold encWriterReadFrom
    rw [if_pos hEc]
  · intro p
    unfold decWriterWrite
    rw [if_pos hDc]
  · intro b
    unfold decWriterWriteByte
    rw [if_pos hDc]
  · intro U
    unfold decWriterReadFrom
    rw [if_pos hDc]

/-- Witness for the amended C9 at concrete freshly-closed writers. -/
theorem write_after_close_panics_witness :
    (∀ p, encWriterWrite toyAEAD 2 [0] [0] okSink
        (encWriterClose toyAEAD [0] [0] okSink ⟨1, [], [], false, none⟩).2 p
        = .panicked)
    ∧ (∀ p, decWriterWrite toyAEAD 2 [0] [0] okSink
        (decWriterClose toyAEAD [0] [0] okSink ⟨1, [3, 0], [], false, none⟩).2 p
        = .panicked) := by
  obtain ⟨h1, -, -, h4, -, -⟩ := write_after_close_panics toyAEAD 2 [0] [0] okSink
    ⟨1, [], [], false, none⟩ ⟨1, [3, 0], [], false, none⟩ (Or.inl rfl) (Or.inl rfl)
  exact ⟨h1, h4⟩

/-! ### Claim C10: zero-length Read -/

/-- Claim C10 (code bug): a `Read` with a zero-length destination is not the
no-op `(0, nil)` required by the claim (and by the `io.Reader` contract the
method's documentation promises).  On a fresh `EncReader` over a one-byte
upstream with `L = 2`, `readFragment` consumes and seals the only fragment,
stores it in `ciphertextBuffer` with `offset = copy(p, ...) = 0` — so the
`offset > 0` replay branch never serves it — and `Read` returns `(0, io.EOF)`.
A later `Read` with room for everything also returns `(0, io.EOF)`, while the
same `Read` on a reader that never saw the zero-length read delivers the
whole two-byte ciphertext.  A `DecReader` over that ciphertext loses the
plaintext byte the same way. -/
theorem zero_length_read_drops_fragment :
    (encReaderRead toyAEAD 2 [0] (tagZero toyAEAD [0] []) (encReaderInit [7]) 0).1
      = ([], some .eof)
    ∧ (encReaderRead toyAEAD 2 [0] (tagZero toyAEAD [0] [])
        (encReaderRead toyAEAD 2 [0] (tagZero toyAEAD [0] [])
          (encReaderInit [7]) 0).2 10).1
      = ([], some .eof)
    ∧ (encReaderRead toyAEAD 2 [0] (tagZero toyAEAD [0] []) (encReaderInit [7]) 10).1
      = ([7, 137], some .eof)
    ∧ (decReaderRead toyAEAD 2 [0] (tagZero toyAEAD [0] [])
        (decReaderInit [7, 137]) 0).1
      = ([], some .eof)
    ∧ (decReaderRead toyAEAD 2 [0] (tagZero toyAEAD [0] [])
        (decReaderRead toyAEAD 2 [0] (tagZero toyAEAD [0] [])
          (decReaderInit [7, 137]) 0).2 10).1
      = ([], some .eof)
    ∧ (decReaderRead toyAEAD 2 [0] (tagZero toyAEAD [0] [])
        (decReaderInit [7, 137]) 10).1
      = ([7], some .eof) :=
  ⟨rfl, rfl, rfl, rfl, rfl, rfl⟩

/-! ### Claim C2: only authenticated bytes are emitted -/

lemma authBytes_nil (A : AEAD) : AuthBytes A [] :=
  ⟨[], rfl, by simp⟩

lemma openedFrag_piece (A : AEAD) (f : List Nat) (h : OpenedFrag A f) : OpenedPiece A f :=
  ⟨f, [], [], h, by simp⟩

lemma openedPiece_authBytes (A : AEAD) (d : List Nat) (h : OpenedPiece A d) :
    AuthBytes A d :=
  ⟨[d], by simp, by simpa⟩

lemma authBytes_append (A : AEAD) (a b : List Nat) (ha : AuthBytes A a)
    (hb : AuthBytes A b) : AuthBytes A (a ++ b) := by
  obtain ⟨ps, hps, hpall⟩ := ha
  obtain ⟨qs, hqs, hqall⟩ := hb
  refine ⟨ps ++ qs, by simp [hps, hqs], ?_⟩
  intro d hd
  rcases List.mem_append.1 hd with h | h
  · exact hpall d h
  · exact hqall d h

lemma openedPiece_take (A : AEAD) (d : List Nat) (n : Nat) (h : OpenedPiece A d) :
    OpenedPiece A (d.take n) := by
  obtain ⟨f, pre, post, hf, he⟩ := h
  refine ⟨f, pre, d.drop n ++ post, hf, ?_⟩
  rw [he]
  simp only [List.append_assoc]
  congr 1
  rw [← List.append_assoc, List.take_append_drop]

lemma openedPiece_drop (A : AEAD) (d : List Nat) (n : Nat) (h : OpenedPiece A d) :
    OpenedPiece A (d.drop n) := by
  obtain ⟨f, pre, post, hf, he⟩ := h
  refine ⟨f, pre ++ d.take n, post, hf, ?_⟩
  rw [he]
  simp only [List.append_assoc]
  congr 1
  rw [← List.append_assoc, List.take_append_drop]

lemma authBytes_take (A : AEAD) (l : List Nat) (n : Nat) (h : AuthBytes A l) :
    AuthBytes A (l.take n) := by
  obtain ⟨ps, hps, hall⟩ := h
  subst hps
  revert hall
  induction ps generalizing n with
  | nil => intro _; simpa using authBytes_nil A
  | cons d ps ih =>
    intro hall
    rw [List.flatten_cons, List.take_append_eq_append_take]
    exact authBytes_append A _ _
      (openedPiece_authBytes A _ (openedPiece_take A d n (hall d (by simp))))
      (ih _ (fun x hx => hall x (List.mem_cons_of_mem d hx)))

lemma authBytes_drop (A : AEAD) (l : List Nat) (n : Nat) (h : AuthBytes A l) :
    AuthBytes A (l.drop n) := by
  obtain ⟨ps, hps, hall⟩ := h
  subst hps
  revert hall
  induction ps generalizing n with
  | nil => intro _; simpa using authBytes_nil A
  | cons d ps ih =>
    intro hall
    rw [List.flatten_cons, List.drop_append_eq_append_drop]
    exact authBytes_append A _ _
      (openedPiece_authBytes A _ (openedPiece_drop A d n (hall d (by simp))))
      (ih _ (fun x hx => hall x (List.mem_cons_of_mem d hx)))

lemma decOpen_openedFrag (A : AEAD) (pub tag0 : List Nat) (s flag : Nat)
    (c pt : List Nat) (h : decOpen A pub tag0 s flag c = some pt) : OpenedFrag A pt :=
  ⟨fragNonce pub s, c, flag :: tag0, h⟩

lemma decOpen_authBytes (A : AEAD) (pub tag0 : List Nat) (s flag : Nat)
    (c pt : List Nat) (h : decOpen A pub tag0 s flag c = some pt) : AuthBytes A pt :=
  openedPiece_authBytes A pt (openedFrag_piece A pt (decOpen_openedFrag A pub tag0 s flag c pt h))

/-- The open loop of `DecWriter.Write` only appends opened plaintext to the
bytes accepted downstream. -/
lemma decWriterLoop_out (A : AEAD) (L : Nat) (pub tag0 : List Nat) (sink : Sink) :
    ∀ (p : List Nat) (st : DecWriterSt) (n : Nat),
      ∃ d, (decWriterLoop A L pub tag0 sink st p n).2.out = st.out ++ d
        ∧ AuthBytes A d := by
  suffices h : ∀ (m : Nat) (p : List Nat), p.length = m → ∀ (st : DecWriterSt) (n : Nat),
      ∃ d, (decWriterLoop A L pub tag0 sink st p n).2.out = st.out ++ d
        ∧ AuthBytes A d by
    intro p st n
    exact h p.length p rfl st n
  intro m
  induction m using Nat.strong_induction_on with
  | _ m ih =>
    intro p hpm st n
    rw [decWriterLoop.eq_def]
    by_cases hL : L = 0
    · rw [if_pos hL]
      exact ⟨[], by simp, authBytes_nil A⟩
    rw [if_neg hL]
    by_cases hlen : p.length ≤ L + A.tagSize
    · rw [if_pos hlen]
      exact ⟨[], by simp, authBytes_nil A⟩
    rw [if_neg hlen]
    by_cases hseq : st.seq = maxU32
    · rw [if_pos hseq]
      exact ⟨[], by simp, authBytes_nil A⟩
    rw [if_neg hseq]
    cases hdo : decOpen A pub tag0 st.seq 0x00 (p.take (L + A.tagSize)) with
    | none => exact ⟨[], by simp, authBytes_nil A⟩
    | some pt =>
      dsimp only
      cases hsk : sink pt with
      | some e => exact ⟨[], by simp, authBytes_nil A⟩
      | none =>
        dsimp only
        obtain ⟨d, hd, had⟩ := ih (p.drop (L + A.tagSize)).length
          (by simp; omega) (p.drop (L + A.tagSize)) rfl
          { st with seq := (st.seq + 1) % 2 ^ 32, out := st.out ++ pt }
          (n + (L + A.tagSize))
        refine ⟨pt ++ d, ?_,
          authBytes_append A pt d (decOpen_authBytes A pub tag0 st.seq 0x00 _ pt hdo) had⟩
        rw [hd]
        dsimp only
        exact List.append_assoc _ _ _

/-- `DecWriter.Close` only appends opened plaintext downstream. -/
lemma decWriterCloseOpen_out (A : AEAD) (pub tag0 : List Nat) (sink : Sink)
    (st : DecWriterSt) :
    ∃ d, (decWriterCloseOpen A pub tag0 sink st).2.out = st.out ++ d
      ∧ AuthBytes A d := by
  unfold decWriterCloseOpen
  by_cases hc : st.closed
  · rw [if_pos hc]
    exact ⟨[], by simp, authBytes_nil A⟩
  rw [if_neg hc]
  cases hdo : decOpen A pub tag0 st.seq 0x80 st.buf with
  | none => exact ⟨[], by simp, authBytes_nil A⟩
  | some pt =>
    dsimp only
    cases hsk : sink pt with
    | some e => exact ⟨[], by simp, authBytes_nil A⟩
    | none =>
      exact ⟨pt, by dsimp only, decOpen_authBytes A pub tag0 st.seq 0x80 st.buf pt hdo⟩

lemma decWriterClose_out (A : AEAD) (pub tag0 : List Nat) (sink : Sink)
    (st : DecWriterSt) :
    ∃ d, (decWriterClose A pub tag0 sink st).2.out = st.out ++ d ∧ AuthBytes A d := by
  unfold decWriterClose
  by_cases hg : st.errSt = none ∨ st.errSt = some .exceeded
  · rw [if_pos hg]
    exact decWriterCloseOpen_out A pub tag0 sink st
  · rw [if_neg hg]
    exact ⟨[], by simp, authBytes_nil A⟩

lemma decWriterWrite_out (A : AEAD) (L : Nat) (pub tag0 : List Nat) (sink : Sink)
    (st : DecWriterSt) (p : List Nat) (res : (Nat × Option Err) × DecWriterSt)
    (h : decWriterWrite A L pub tag0 sink st p = .ret res) :
    ∃ d, res.2.out = st.out ++ d ∧ AuthBytes A d := by
  unfold decWriterWrite at h
  by_cases hc : st.closed
  · rw [if_pos hc] at h
    cases h
  rw [if_neg hc] at h
  cases herr : st.errSt with
  | some e =>
    simp only [herr] at h
    cases h
    exact ⟨[], by simp, authBytes_nil A⟩
  | none =>
    simp only [herr] at h
    by_cases hb : st.buf.length > 0
    · rw [if_pos hb] at h
      by_cases hnc : min p.length (L + A.tagSize - st.buf.length) = p.length
      · rw [if_pos hnc] at h
        cases h
        exact ⟨[], by simp, authBytes_nil A⟩
      rw [if_neg hnc] at h
      by_cases hseq : st.seq = maxU32
      · rw [if_pos hseq] at h
        cases h
        exact ⟨[], by simp, authBytes_nil A⟩
      rw [if_neg hseq] at h
      cases hdo : decOpen A pub tag0 st.seq 0x00
          (st.buf ++ p.take (min p.length (L + A.tagSize - st.buf.length))) with
      | none =>
        rw [hdo] at h
        dsimp only at h
        cases h
        exact ⟨[], by simp, authBytes_nil A⟩
      | some pt =>
        rw [hdo] at h
        dsimp only at h
        cases hsk : sink pt with
        | some e =>
          rw [hsk] at h
          dsimp only at h
          cases h
          exact ⟨[], by simp, authBytes_nil A⟩
        | none =>
          rw [hsk] at h
          dsimp only at h
          cases h
          obtain ⟨d, hd, had⟩ := decWriterLoop_out A L pub tag0 sink
            (p.drop (min p.length (L + A.tagSize - st.buf.length)))
            { st with buf := [], seq := (st.seq + 1) % 2 ^ 32, out := st.out ++ pt }
            (min p.length (L + A.tagSize - st.buf.length))
          rw [herr] at hd
          refine ⟨pt ++ d, ?_,
            authBytes_append A pt d (decOpen_authBytes A pub tag0 st.seq 0x00 _ pt hdo) had⟩
          rw [hd]
          dsimp only
          exact List.append_assoc _ _ _
    · rw [if_neg hb] at h
      cases h
      exact decWriterLoop_out A L pub tag0 sink p st 0

lemma decWriterWriteByte_out (A : AEAD) (L : Nat) (pub tag0 : List Nat) (sink : Sink)
    (st : DecWriterSt) (b : Nat) (res : Option Err × DecWriterSt)
    (h : decWriterWriteByte A L pub tag0 sink st b = .ret res) :
    ∃ d, res.2.out = st.out ++ d ∧ AuthBytes A d := by
  unfold decWriterWriteByte at h
  by_cases hc : st.closed
  · rw [if_pos hc] at h
    cases h
  rw [if_neg hc] at h
  cases herr : st.errSt with
  | some e =>
    simp only [herr] at h
    cases h
    exact ⟨[], by simp, authBytes_nil A⟩
  | none =>
    simp only [herr] at h
    by_cases hb : st.buf.length < L + A.tagSize
    · rw [if_pos hb] at h
      cases h
      exact ⟨[], by simp, authBytes_nil A⟩
    rw [if_neg hb] at h
    by_cases hseq : st.seq = maxU32
    · rw [if_pos hseq] at h
      cases h
      exact ⟨[], by simp, authBytes_nil A⟩
    rw [if_neg hseq] at h
    cases hdo : decOpen A pub tag0 st.seq 0x00 st.buf with
    | none =>
      rw [hdo] at h
      dsimp only at h
      cases h
      exact ⟨[], by simp, authBytes_nil A⟩
    | some pt =>
      rw [hdo] at h
      dsimp only at h
      cases hsk : sink pt with
      | some e =>
        rw [hsk] at h
        dsimp only at h
        cases h
        exact ⟨[], by simp, authBytes_nil A⟩
      | none =>
        rw [hsk] at h
        dsimp only at h
        cases h
        exact ⟨pt, by dsimp only, decOpen_authBytes A pub tag0 st.seq 0x00 st.buf pt hdo⟩

/-- The look-ahead loop of `DecWriter.ReadFrom` only appends opened plaintext
downstream. -/
lemma decWriterRFLoop_out (A : AEAD) (L : Nat) (pub tag0 : List Nat) (sink : Sink) :
    ∀ (V : List Nat) (st : DecWriterSt) (n : Nat),
      ∃ d, (decWriterRFLoop A L pub tag0 sink st V n).2.out = st.out ++ d
        ∧ AuthBytes A d := by
  suffices h : ∀ (m : Nat) (V : List Nat), V.length = m → ∀ (st : DecWriterSt) (n : Nat),
      ∃ d, (decWriterRFLoop A L pub tag0 sink st V n).2.out = st.out ++ d
        ∧ AuthBytes A d by
    intro V st n
    exact h V.length V rfl st n
  intro m
  induction m using Nat.strong_induction_on with
  | _ m ih =>
    intro V hVm st n
    rw [decWriterRFLoop.eq_def]
    by_cases hL : L = 0
    · rw [if_pos hL]
      exact ⟨[], by simp, authBytes_nil A⟩
    rw [if_neg hL]
    by_cases hlen : V.length < L + A.tagSize + 1
    · rw [if_pos hlen]
      rcases hcl : decWriterClose A pub tag0 sink { st with buf := V } with ⟨ce, st'⟩
      obtain ⟨d, hd, had⟩ := decWriterClose_out A pub tag0 sink { st with buf := V }
      rw [hcl] at hd
      dsimp only at hd
      exact ⟨d, hd, had⟩
    rw [if_neg hlen]
    by_cases hseq : st.seq = maxU32
    · rw [if_pos hseq]
      exact ⟨[], by simp, authBytes_nil A⟩
    rw [if_neg hseq]
    cases hdo : decOpen A pub tag0 st.seq 0x00 (V.take (L + A.tagSize)) with
    | none => exact ⟨[], by simp, authBytes_nil A⟩
    | some pt =>
      dsimp only
      cases hsk : sink pt with
      | some e => exact ⟨[], by simp, authBytes_nil A⟩
      | none =>
        dsimp only
        obtain ⟨d, hd, had⟩ := ih (V.drop (L + A.tagSize)).length
          (by simp; omega) (V.drop (L + A.tagSize)) rfl
          { st with seq := (st.seq + 1) % 2 ^ 32, out := st.out ++ pt }
          (n + (L + A.tagSize))
        refine ⟨pt ++ d, ?_,
          authBytes_append A pt d (decOpen_authBytes A pub tag0 st.seq 0x00 _ pt hdo) had⟩
        rw [hd]
        dsimp only
        exact List.append_assoc _ _ _

lemma decWriterReadFrom_out (A : AEAD) (L : Nat) (pub tag0 : List Nat) (sink : Sink)
    (st : DecWriterSt) (U : List Nat) (res : (Nat × Option Err) × DecWriterSt)
    (h : decWriterReadFrom A L pub tag0 sink st U = .ret res) :
    ∃ d, res.2.out = st.out ++ d ∧ AuthBytes A d := by
  unfold decWriterReadFrom at h
  by_cases hc : st.closed
  · rw [if_pos hc] at h
    cases h
  rw [if_neg hc] at h
  cases herr : st.errSt with
  | some e =>
    simp only [herr] at h
    cases h
    exact ⟨[], by simp, authBytes_nil A⟩
  | none =>
    simp only [herr] at h
    by_cases hL : L = 0
    · rw [if_pos hL] at h
      cases h
      exact ⟨[], by simp, authBytes_nil A⟩
    rw [if_neg hL] at h
    by_cases hlen : U.length < L + A.tagSize + 1
    · rw [if_pos hlen] at h
      cases h
      obtain ⟨d, hd, had⟩ := decWriterClose_out A pub tag0 sink { st with buf := U }
      rw [herr] at hd
      refine ⟨d, ?_, had⟩
      dsimp only
      rw [hd]
    rw [if_neg hlen] at h
    by_cases hseq : st.seq = maxU32
    · rw [if_pos hseq] at h
      cases h
      exact ⟨[], by simp, authBytes_nil A⟩
    rw [if_neg hseq] at h
    cases hdo : decOpen A pub tag0 st.seq 0x00 (U.take (L + A.tagSize)) with
    | none =>
      rw [hdo] at h
      dsimp only at h
      cases h
      exact ⟨[], by simp, authBytes_nil A⟩
    | some pt =>
      rw [hdo] at h
      dsimp only at h
      cases hsk : sink pt with
      | some e =>
        rw [hsk] at h
        dsimp only at h
        cases h
        exact ⟨[], by simp, authBytes_nil A⟩
      | none =>
        rw [hsk] at h
        dsimp only at h
        cases h
        obtain ⟨d, hd, had⟩ := decWriterRFLoop_out A L pub tag0 sink
          (U.drop (L + A.tagSize))
          { st with seq := (st.seq + 1) % 2 ^ 32, out := st.out ++ pt }
          (L + A.tagSize + 1)
        rw [herr] at hd
        refine ⟨pt ++ d, ?_,
          authBytes_append A pt d (decOpen_authBytes A pub tag0 st.seq 0x00 _ pt hdo) had⟩
        rw [hd]
        dsimp only
        exact List.append_assoc _ _ _

/-- The open loop of `DecWriter.Write` latches a `NotAuthentic` result in
`w.err`. -/
lemma decWriterLoop_latch (A : AEAD) (L : Nat) (pub tag0 : List Nat) (sink : Sink) :
    ∀ (p : List Nat) (st : DecWriterSt) (n : Nat),
      (decWriterLoop A L pub tag0 sink st p n).1.2 = some .notAuthentic →
      (decWriterLoop A L pub tag0 sink st p n).2.errSt = some .notAuthentic := by
  suffices h : ∀ (m : Nat) (p : List Nat), p.length = m → ∀ (st : DecWriterSt) (n : Nat),
      (decWriterLoop A L pub tag0 sink st p n).1.2 = some .notAuthentic →
      (decWriterLoop A L pub tag0 sink st p n).2.errSt = some .notAuthentic by
    intro p st n
    exact h p.length p rfl st n
  intro m
  induction m using Nat.strong_induction_on with
  | _ m ih =>
    intro p hpm st n
    rw [decWriterLoop.eq_def]
    by_cases hL : L = 0
    · rw [if_pos hL]
      intro h
      simp at h
    rw [if_neg hL]
    by_cases hlen : p.length ≤ L + A.tagSize
    · rw [if_pos hlen]
      intro h
      simp at h
    rw [if_neg hlen]
    by_cases hseq : st.seq = maxU32
    · rw [if_pos hseq]
      intro h
      simp at h
    rw [if_neg hseq]
    cases hdo : decOpen A pub tag0 st.seq 0x00 (p.take (L + A.tagSize)) with
    | none =>
      intro h
      rfl
    | some pt =>
      dsimp only
      cases hsk : sink pt with
      | some e =>
        intro h
        dsimp only at h ⊢
        exact h
      | none =>
        exact ih (p.drop (L + A.tagSize)).length (by simp; omega) (p.drop (L + A.tagSize))
          rfl { st with seq := (st.seq + 1) % 2 ^ 32, out := st.out ++ pt }
          (n + (L + A.tagSize))

lemma decWriterCloseOpen_latch (A : AEAD) (pub tag0 : List Nat) (sink : Sink)
    (st : DecWriterSt)
    (h : (decWriterCloseOpen A pub tag0 sink st).1 = some .notAuthentic) :
    (decWriterCloseOpen A pub tag0 sink st).2.errSt = some .notAuthentic := by
  unfold decWriterCloseOpen at h ⊢
  by_cases hc : st.closed
  · rw [if_pos hc] at h
    simp at h
  rw [if_neg hc] at h ⊢
  cases hdo : decOpen A pub tag0 st.seq 0x80 st.buf with
  | none => rfl
  | some pt =>
    rw [hdo] at h
    dsimp only at h
    dsimp only
    cases hsk : sink pt with
    | some e =>
      rw [hsk] at h
      dsimp only at h ⊢
      exact h
    | none =>
      rw [hsk] at h
      dsimp only at h
      simp at h

lemma decWriterClose_latch (A : AEAD) (pub tag0 : List Nat) (sink : Sink)
    (st : DecWriterSt)
    (h : (decWriterClose A pub tag0 sink st).1 = some .notAuthentic) :
    (decWriterClose A pub tag0 sink st).2.errSt = some .notAuthentic := by
  unfold decWriterClose at h ⊢
  by_cases hg : st.errSt = none ∨ st.errSt = some .exceeded
  · rw [if_pos hg] at h ⊢
    exact decWriterCloseOpen_latch A pub tag0 sink st h
  · rw [if_neg hg] at h ⊢
    exact h

lemma decWriterWrite_latch (A : AEAD) (L : Nat) (pub tag0 : List Nat) (sink : Sink)
    (st : DecWriterSt) (p : List Nat) (res : (Nat × Option Err) × DecWriterSt)
    (h : decWriterWrite A L pub tag0 sink st p = .ret res)
    (he : res.1.2 = some .notAuthentic) : res.2.errSt = some .notAuthentic := by
  unfold decWriterWrite at h
  by_cases hc : st.closed
  · rw [if_pos hc] at h
    cases h
  rw [if_neg hc] at h
  cases herr : st.errSt with
  | some e =>
    simp only [herr] at h
    cases h
    dsimp only at he ⊢
    rw [herr]
    exact he
  | none =>
    simp only [herr] at h
    by_cases hb : st.buf.length > 0
    · rw [if_pos hb] at h
      by_cases hnc : min p.length (L + A.tagSize - st.buf.length) = p.length
      · rw [if_pos hnc] at h
        cases h
        simp at he
      rw [if_neg hnc] at h
      by_cases hseq : st.seq = maxU32
      · rw [if_pos hseq] at h
        cases h
        simp at he
      rw [if_neg hseq] at h
      cases hdo : decOpen A pub tag0 st.seq 0x00
          (st.buf ++ p.take (min p.length (L + A.tagSize - st.buf.length))) with
      | none =>
        rw [hdo] at h
        dsimp only at h
        cases h
        rfl
      | some pt =>
        rw [hdo] at h
        dsimp only at h
        cases hsk : sink pt with
        | some e =>
          rw [hsk] at h
          dsimp only at h
          cases h
          dsimp only at he ⊢
          exact he
        | none =>
          rw [hsk] at h
          dsimp only at h
          cases h
          exact decWriterLoop_latch A L pub tag0 sink _ _ _ he
    · rw [if_neg hb] at h
      cases h
      exact decWriterLoop_latch A L pub tag0 sink p st 0 he

lemma decWriterWriteByte_latch (A : AEAD) (L : Nat) (pub tag0 : List Nat) (sink : Sink)
    (st : DecWriterSt) (b : Nat) (res : Option Err × DecWriterSt)
    (h : decWriterWriteByte A L pub tag0 sink st b = .ret res)
    (he : res.1 = some .notAuthentic) : res.2.errSt = some .notAuthentic := by
  unfold decWriterWriteByte at h
  by_cases hc : st.closed
  · rw [if_pos hc] at h
    cases h
  rw [if_neg hc] at h
  cases herr : st.errSt with
  | some e =>
    simp only [herr] at h
    cases h
    dsimp only at he ⊢
    rw [herr]
    exact he
  | none =>
    simp only [herr] at h
    by_cases hb : st.buf.length < L + A.tagSize
    · rw [if_pos hb] at h
      cases h
      simp at he
    rw [if_neg hb] at h
    by_cases hseq : st.seq = maxU32
    · rw [if_pos hseq] at h
      cases h
      simp at he
    rw [if_neg hseq] at h
    cases hdo : decOpen A pub tag0 st.seq 0x00 st.buf with
    | none =>
      rw [hdo] at h
      dsimp only at h
      cases h
      rfl
    | some pt =>
      rw [hdo] at h
      dsimp only at h
      cases hsk : sink pt with
      | some e =>
        rw [hsk] at h
        dsimp only at h
        cases h
        dsimp only at he ⊢
        exact he
      | none =>
        rw [hsk] at h
        dsimp only at h
        cases h
        simp at he

/-- The look-ahead loop of `DecWriter.ReadFrom` latches a `NotAuthentic`
result. -/
lemma decWriterRFLoop_latch (A : AEAD) (L : Nat) (pub tag0 : List Nat) (sink : Sink) :
    ∀ (V : List Nat) (st : DecWriterSt) (n : Nat),
      (decWriterRFLoop A L pub tag0 sink st V n).1.2 = some .notAuthentic →
      (decWriterRFLoop A L pub tag0 sink st V n).2.errSt = some .notAuthentic := by
  suffices h : ∀ (m : Nat) (V : List Nat), V.length = m → ∀ (st : DecWriterSt) (n : Nat),
      (decWriterRFLoop A L pub tag0 sink st V n).1.2 = some .notAuthentic →
      (decWriterRFLoop A L pub tag0 sink st V n).2.errSt = some .notAuthentic by
    intro V st n
    exact h V.length V rfl st n
  intro m
  induction m using Nat.strong_induction_on with
  | _ m ih =>
    intro V hVm st n
    rw [decWriterRFLoop.eq_def]
    by_cases hL : L = 0
    · rw [if_pos hL]
      intro h
      simp at h
    rw [if_neg hL]
    by_cases hlen : V.length < L + A.tagSize + 1
    · rw [if_pos hlen]
      intro h
      have hl := decWriterClose_latch A pub tag0 sink { st with buf := V }
      rcases hcl : decWriterClose A pub tag0 sink { st with buf := V } with ⟨ce, st'⟩
      rw [hcl] at hl h
      dsimp only at hl h ⊢
      exact hl h
    rw [if_neg hlen]
    by_cases hseq : st.seq = maxU32
    · rw [if_pos hseq]
      intro h
      simp at h
    rw [if_neg hseq]
    cases hdo : decOpen A pub tag0 st.seq 0x00 (V.take (L + A.tagSize)) with
    | none =>
      intro h
      rfl
    | some pt =>
      dsimp only
      cases hsk : sink pt with
      | some e =>
        intro h
        dsimp only at h ⊢
        exact h
      | none =>
        exact ih (V.drop (L + A.tagSize)).length (by simp; omega) (V.drop (L + A.tagSize))
          rfl { st with seq := (st.seq + 1) % 2 ^ 32, out := st.out ++ pt }
          (n + (L + A.tagSize))

lemma decWriterReadFrom_latch (A : AEAD) (L : Nat) (pub tag0 : List Nat) (sink : Sink)
    (st : DecWriterSt) (U : List Nat) (res : (Nat × Option Err) × DecWriterSt)
    (h : decWriterReadFrom A L pub tag0 sink st U = .ret res)
    (he : res.1.2 = some .notAuthentic) : res.2.errSt = some .notAuthentic := by
  unfold decWriterReadFrom at h
  by_cases hc : st.closed
  · rw [if_pos hc] at h
    cases h
  rw [if_neg hc] at h
  cases herr : st.errSt with
  | some e =>
    simp only [herr] at h
    cases h
    dsimp only at he ⊢
    rw [herr]
    exact he
  | none =>
    simp only [herr] at h
    by_cases hL : L = 0
    · rw [if_pos hL] at h
      cases h
      simp at he
    rw [if_neg hL] at h
    by_cases hlen : U.length < L + A.tagSize + 1
    · rw [if_pos hlen] at h
      cases h
      have hl := decWriterClose_latch A pub tag0 sink { st with buf := U }
      rw [herr] at hl
      dsimp only at he ⊢
      exact hl he
    rw [if_neg hlen] at h
    by_cases hseq : st.seq = maxU32
    · rw [if_pos hseq] at h
      cases h
      simp at he
    rw [if_neg hseq] at h
    cases hdo : decOpen A pub tag0 st.seq 0x00 (U.take (L + A.tagSize)) with
    | none =>
      rw [hdo] at h
      dsimp only at h
      cases h
      rfl
    | some pt =>
      rw [hdo] at h
      dsimp only at h
      cases hsk : sink pt with
      | some e =>
        rw [hsk] at h
        dsimp only at h
        cases h
        dsimp only at he ⊢
        exact he
      | none =>
        rw [hsk] at h
        dsimp only at h
        cases h
        exact decWriterRFLoop_latch A L pub tag0 sink _ _ _ he

/-- `DecWriter.Write` replays a latched error without touching anything. -/
lemma decWriterWrite_replay (A : AEAD) (L : Nat) (pub tag0 : List Nat) (sink : Sink)
    (st : DecWriterSt) (p : List Nat) (e : Err) (hc : st.closed = false)
    (h : st.errSt = some e) :
    decWriterWrite A L pub tag0 sink st p = .ret ((0, some e), st) := by
  unfold decWriterWrite
  rw [if_neg (by simp [hc]), h]

lemma decWriterWriteByte_replay (A : AEAD) (L : Nat) (pub tag0 : List Nat) (sink : Sink)
    (st : DecWriterSt) (b : Nat) (e : Err) (hc : st.closed = false)
    (h : st.errSt = some e) :
    decWriterWriteByte A L pub tag0 sink st b = .ret (some e, st) := by
  unfold decWriterWriteByte
  rw [if_neg (by simp [hc]), h]

lemma decWriterReadFrom_replay (A : AEAD) (L : Nat) (pub tag0 : List Nat) (sink : Sink)
    (st : DecWriterSt) (U : List Nat) (e : Err) (hc : st.closed = false)
    (h : st.errSt = some e) :
    decWriterReadFrom A L pub tag0 sink st U = .ret ((0, some e), st) := by
  unfold decWriterReadFrom
  rw [if_neg (by simp [hc]), h]

/-- `DecReader.readFragment` only hands out opened plaintext (in full, or the
prefix that fits the destination with the rest going to `plaintextBuffer`),
and keeps the buffer invariant. -/
lemma decReaderReadFragment_auth (A : AEAD) (L : Nat) (pub tag0 : List Nat)
    (st : DecReaderSt) (plen fro : Nat) (hinv : DecReaderInv A st) :
    AuthBytes A (decReaderReadFragment A L pub tag0 st plen fro).1.1
    ∧ DecReaderInv A (decReaderReadFragment A L pub tag0 st plen fro).2 := by
  unfold decReaderReadFragment
  by_cases h0 : st.seq % 2 ^ 32 = 0
  · rw [if_pos h0]
    exact ⟨authBytes_nil A, hinv⟩
  rw [if_neg h0]
  dsimp only
  by_cases h1 : st.up.length < 1 + (L + A.tagSize) - fro
  · rw [if_pos h1]
    by_cases h2 : ((if fro = 0 then [] else [st.carry])
        ++ st.up.take (1 + (L + A.tagSize) - fro)).length < A.tagSize
    · rw [if_pos h2]
      exact ⟨authBytes_nil A, hinv⟩
    rw [if_neg h2]
    cases hdo : decOpen A pub tag0 (st.seq % 2 ^ 32) 0x80
        ((if fro = 0 then [] else [st.carry])
          ++ st.up.take (1 + (L + A.tagSize) - fro)) with
    | none => exact ⟨authBytes_nil A, hinv⟩
    | some pt =>
      dsimp only
      by_cases h3 : plen < ((if fro = 0 then [] else [st.carry])
          ++ st.up.take (1 + (L + A.tagSize) - fro)).length - A.tagSize
      · rw [if_pos h3]
        exact ⟨authBytes_take A pt plen (decOpen_authBytes A pub tag0 _ 0x80 _ pt hdo),
          Or.inr (decOpen_openedFrag A pub tag0 _ 0x80 _ pt hdo)⟩
      · rw [if_neg h3]
        exact ⟨decOpen_authBytes A pub tag0 _ 0x80 _ pt hdo, hinv⟩
  · rw [if_neg h1]
    cases hdo : decOpen A pub tag0 (st.seq % 2 ^ 32) 0x00
        (((if fro = 0 then [] else [st.carry])
          ++ st.up.take (1 + (L + A.tagSize) - fro)).take (L + A.tagSize)) with
    | none => exact ⟨authBytes_nil A, hinv⟩
    | some pt =>
      dsimp only
      by_cases h3 : plen < L
      · rw [if_pos h3]
        exact ⟨authBytes_take A pt plen (decOpen_authBytes A pub tag0 _ 0x00 _ pt hdo),
          Or.inr (decOpen_openedFrag A pub tag0 _ 0x00 _ pt hdo)⟩
      · rw [if_neg h3]
        exact ⟨decOpen_authBytes A pub tag0 _ 0x00 _ pt hdo, hinv⟩

lemma decReaderReadTail_auth (A : AEAD) (L : Nat) (pub tag0 : List Nat)
    (st : DecReaderSt) (plen : Nat) (acc : List Nat)
    (hacc : AuthBytes A acc) (hinv : DecReaderInv A st) :
    AuthBytes A (decReaderReadTail A L pub tag0 st plen acc).1.1
    ∧ DecReaderInv A (decReaderReadTail A L pub tag0 st plen acc).2 := by
  unfold decReaderReadTail
  by_cases hc : st.closed
  · rw [if_pos hc]
    exact ⟨hacc, hinv⟩
  rw [if_neg hc]
  obtain ⟨ha, hi⟩ := decReaderReadFragment_auth A L pub tag0 st plen 1 hinv
  rcases hrf : decReaderReadFragment A L pub tag0 st plen 1 with ⟨⟨d, er⟩, st'⟩
  rw [hrf] at ha hi
  dsimp only at ha hi ⊢
  exact ⟨authBytes_append A acc d hacc ha, hi⟩

lemma decReaderReadRest_auth (A : AEAD) (L : Nat) (pub tag0 : List Nat)
    (st : DecReaderSt) (plen : Nat) (acc : List Nat)
    (hacc : AuthBytes A acc) (hinv : DecReaderInv A st) :
    AuthBytes A (decReaderReadRest A L pub tag0 st plen acc).1.1
    ∧ DecReaderInv A (decReaderReadRest A L pub tag0 st plen acc).2 := by
  unfold decReaderReadRest
  by_cases ho : st.off > 0
  · rw [if_pos ho]
    dsimp only
    have hpb : AuthBytes A (st.pbuf.drop st.off) := by
      rcases hinv with h | h
      · rw [h]
        simpa using authBytes_nil A
      · exact openedPiece_authBytes A _ (openedPiece_drop A _ _ (openedFrag_piece A _ h))
    by_cases hnn : min plen (st.pbuf.drop st.off).length = plen
    · rw [if_pos hnn]
      exact ⟨authBytes_append A acc _ hacc (authBytes_take A _ plen hpb), hinv⟩
    · rw [if_neg hnn]
      exact decReaderReadTail_auth A L pub tag0 { st with off := 0 } _ _
        (authBytes_append A acc _ hacc hpb) hinv
  · rw [if_neg ho]
    exact decReaderReadTail_auth A L pub tag0 st plen acc hacc hinv

/-- `DecReader.Read` only delivers opened plaintext and keeps the buffer
invariant. -/
lemma decReaderRead_auth (A : AEAD) (L : Nat) (pub tag0 : List Nat)
    (st : DecReaderSt) (plen : Nat) (hinv : DecReaderInv A st) :
    AuthBytes A (decReaderRead A L pub tag0 st plen).1.1
    ∧ DecReaderInv A (decReaderRead A L pub tag0 st plen).2 := by
  unfold decReaderRead
  cases herr : st.errSt with
  | some e =>
    dsimp only
    exact ⟨authBytes_nil A, hinv⟩
  | none =>
    dsimp only
    by_cases hf : st.firstRead
    · rw [if_pos hf]
      obtain ⟨ha, hi⟩ := decReaderReadFragment_auth A L pub tag0
        { st with firstRead := false, errSt := none } plen 0 hinv
      cases her2 : (decReaderReadFragment A L pub tag0
          { st with firstRead := false, errSt := none } plen 0).1.2 with
      | some e2 => exact ⟨ha, hi⟩
      | none =>
        exact decReaderReadRest_auth A L pub tag0
          (decReaderReadFragment A L pub tag0
            { st with firstRead := false, errSt := none } plen 0).2
          (plen - (decReaderReadFragment A L pub tag0
            { st with firstRead := false, errSt := none } plen 0).1.1.length)
          (decReaderReadFragment A L pub tag0
            { st with firstRead := false, errSt := none } plen 0).1.1 ha hi
    · rw [if_neg hf]
      exact decReaderReadRest_auth A L pub tag0 st plen [] (authBytes_nil A) hinv

/-- `DecReader.readFragment` latches a `NotAuthentic` result in `r.err`. -/
lemma decReaderReadFragment_latch (A : AEAD) (L : Nat) (pub tag0 : List Nat)
    (st : DecReaderSt) (plen fro : Nat)
    (h : (decReaderReadFragment A L pub tag0 st plen fro).1.2 = some .notAuthentic) :
    (decReaderReadFragment A L pub tag0 st plen fro).2.errSt = some .notAuthentic := by
  unfold decReaderReadFragment at h ⊢
  by_cases h0 : st.seq % 2 ^ 32 = 0
  · rw [if_pos h0] at h
    simp at h
  rw [if_neg h0] at h ⊢
  dsimp only at h ⊢
  by_cases h1 : st.up.length < 1 + (L + A.tagSize) - fro
  · rw [if_pos h1] at h ⊢
    by_cases h2 : ((if fro = 0 then [] else [st.carry])
        ++ st.up.take (1 + (L + A.tagSize) - fro)).length < A.tagSize
    · rw [if_pos h2]
    rw [if_neg h2] at h ⊢
    cases hdo : decOpen A pub tag0 (st.seq % 2 ^ 32) 0x80
        ((if fro = 0 then [] else [st.carry])
          ++ st.up.take (1 + (L + A.tagSize) - fro)) with
    | none => rfl
    | some pt =>
      rw [hdo] at h
      dsimp only at h
      dsimp only
      by_cases h3 : plen < ((if fro = 0 then [] else [st.carry])
          ++ st.up.take (1 + (L + A.tagSize) - fro)).length - A.tagSize
      · rw [if_pos h3] at h
        simp at h
      · rw [if_neg h3] at h
        simp at h
  · rw [if_neg h1] at h ⊢
    cases hdo : decOpen A pub tag0 (st.seq % 2 ^ 32) 0x00
        (((if fro = 0 then [] else [st.carry])
          ++ st.up.take (1 + (L + A.tagSize) - fro)).take (L + A.tagSize)) with
    | none => rfl
    | some pt =>
      rw [hdo] at h
      dsimp only at h
      by_cases h3 : plen < L
      · rw [if_pos h3] at h
        simp at h
      · rw [if_neg h3] at h
        simp at h

lemma decReaderReadTail_latch (A : AEAD) (L : Nat) (pub tag0 : List Nat)
    (st : DecReaderSt) (plen : Nat) (acc : List Nat)
    (h : (decReaderReadTail A L pub tag0 st plen acc).1.2 = some .notAuthentic) :
    (decReaderReadTail A L pub tag0 st plen acc).2.errSt = some .notAuthentic := by
  unfold decReaderReadTail at h ⊢
  by_cases hc : st.closed
  · rw [if_pos hc] at h
    simp at h
  rw [if_neg hc] at h ⊢
  have hl := decReaderReadFragment_latch A L pub tag0 st plen 1
  rcases hrf : decReaderReadFragment A L pub tag0 st plen 1 with ⟨⟨d, er⟩, st'⟩
  rw [hrf] at h hl
  dsimp only at h hl ⊢
  exact hl h

lemma decReaderReadRest_latch (A : AEAD) (L : Nat) (pub tag0 : List Nat)
    (st : DecReaderSt) (plen : Nat) (acc : List Nat)
    (h : (decReaderReadRest A L pub tag0 st plen acc).1.2 = some .notAuthentic) :
    (decReaderReadRest A L pub tag0 st plen acc).2.errSt = some .notAuthentic := by
  unfold decReaderReadRest at h ⊢
  by_cases ho : st.off > 0
  · rw [if_pos ho] at h ⊢
    dsimp only at h ⊢
    by_cases hnn : min plen (st.pbuf.drop st.off).length = plen
    · rw [if_pos hnn] at h
      simp at h
    · rw [if_neg hnn] at h ⊢
      exact decReaderReadTail_latch A L pub tag0 _ _ _ h
  · rw [if_neg ho] at h ⊢
    exact decReaderReadTail_latch A L pub tag0 st plen acc h

/-- `DecReader.Read` latches a `NotAuthentic` result in `r.err`. -/
lemma decReaderRead_latch (A : AEAD) (L : Nat) (pub tag0 : List Nat)
    (st : DecReaderSt) (plen : Nat)
    (h : (decReaderRead A L pub tag0 st plen).1.2 = some .notAuthentic) :
    (decReaderRead A L pub tag0 st plen).2.errSt = some .notAuthentic := by
  unfold decReaderRead at h ⊢
  cases herr : st.errSt with
  | some e =>
    rw [herr] at h
    dsimp only at h ⊢
    rw [herr]
    exact h
  | none =>
    rw [herr] at h
    dsimp only at h ⊢
    by_cases hf : st.firstRead
    · rw [if_pos hf] at h ⊢
      have hl := decReaderReadFragment_latch A L pub tag0
        { st with firstRead := false, errSt := none } plen 0
      cases her2 : (decReaderReadFragment A L pub tag0
          { st with firstRead := false, errSt := none } plen 0).1.2 with
      | some e2 =>
        rw [her2] at h
        dsimp only at h
        exact hl (her2.trans h)
      | none =>
        rw [her2] at h
        dsimp only at h
        exact decReaderReadRest_latch A L pub tag0 _ _ _ h
    · rw [if_neg hf] at h ⊢
      exact decReaderReadRest_latch A L pub tag0 st plen [] h

/-- `DecReader.Read` replays a latched error without touching anything. -/
lemma decReaderRead_replay (A : AEAD) (L : Nat) (pub tag0 : List Nat)
    (st : DecReaderSt) (plen : Nat) (e : Err) (h : st.errSt = some e) :
    decReaderRead A L pub tag0 st plen = (([], some e), st) := by
  unfold decReaderRead
  rw [h]

/-- The fragment loop of `DecReader.WriteTo` forwards only opened plaintext
and keeps the buffer invariant. -/
lemma decReaderWTLoop_auth (A : AEAD) (L : Nat) (pub tag0 : List Nat) (sink : Sink) :
    ∀ (st : DecReaderSt), DecReaderInv A st →
      AuthBytes A (decReaderWTLoop A L pub tag0 sink st).1.1
      ∧ DecReaderInv A (decReaderWTLoop A L pub tag0 sink st).2 := by
  suffices h : ∀ (m : Nat) (st : DecReaderSt), st.up.length = m → DecReaderInv A st →
      AuthBytes A (decReaderWTLoop A L pub tag0 sink st).1.1
      ∧ DecReaderInv A (decReaderWTLoop A L pub tag0 sink st).2 by
    intro st
    exact h st.up.length st rfl
  intro m
  induction m using Nat.strong_induction_on with
  | _ m ih =>
    intro st hm hinv
    rw [decReaderWTLoop.eq_def]
    by_cases hL : L = 0
    · rw [if_pos hL]
      exact ⟨authBytes_nil A, hinv⟩
    rw [if_neg hL]
    by_cases h0 : st.seq % 2 ^ 32 = 0
    · rw [if_pos h0]
      exact ⟨authBytes_nil A, hinv⟩
    rw [if_neg h0]
    dsimp only
    by_cases h1 : st.up.length < L + A.tagSize
    · rw [if_pos h1]
      by_cases h2 : ([st.carry] ++ st.up.take (L + A.tagSize)).length < A.tagSize
      · rw [if_pos h2]
        exact ⟨authBytes_nil A, hinv⟩
      rw [if_neg h2]
      cases hdo : decOpen A pub tag0 (st.seq % 2 ^ 32) 0x80
          ([st.carry] ++ st.up.take (L + A.tagSize)) with
      | none => exact ⟨authBytes_nil A, hinv⟩
      | some pt =>
        dsimp only
        cases hsk : sink pt with
        | some e => exact ⟨authBytes_nil A, hinv⟩
        | none => exact ⟨decOpen_authBytes A pub tag0 _ 0x80 _ pt hdo, hinv⟩
    · rw [if_neg h1]
      cases hdo : decOpen A pub tag0 (st.seq % 2 ^ 32) 0x00
          (([st.carry] ++ st.up.take (L + A.tagSize)).take (L + A.tagSize)) with
      | none => exact ⟨authBytes_nil A, hinv⟩
      | some pt =>
        dsimp only
        cases hsk : sink pt with
        | some e => exact ⟨authBytes_nil A, hinv⟩
        | none =>
          dsimp only
          obtain ⟨ha, hi⟩ := ih (st.up.drop (L + A.tagSize)).length (by simp; omega)
            { st with
                up := st.up.drop (L + A.tagSize)
                seq := st.seq + 1
                carry := (([st.carry] ++ st.up.take (L + A.tagSize)).drop
                  (L + A.tagSize)).headD 0 }
            rfl hinv
          rcases hrec : decReaderWTLoop A L pub tag0 sink
              { st with
                  up := st.up.drop (L + A.tagSize)
                  seq := st.seq + 1
                  carry := (([st.carry] ++ st.up.take (L + A.tagSize)).drop
                    (L + A.tagSize)).headD 0 }
            with ⟨⟨rest, e⟩, st3⟩
          rw [hrec] at ha hi
          dsimp only at ha hi ⊢
          exact ⟨authBytes_append A pt rest
            (decOpen_authBytes A pub tag0 _ 0x00 _ pt hdo) ha, hi⟩

/-- The fragment loop of `DecReader.WriteTo` latches a `NotAuthentic`
result. -/
lemma decReaderWTLoop_latch (A : AEAD) (L : Nat) (pub tag0 : List Nat) (sink : Sink) :
    ∀ (st : DecReaderSt),
      (decReaderWTLoop A L pub tag0 sink st).1.2 = some .notAuthentic →
      (decReaderWTLoop A L pub tag0 sink st).2.errSt = some .notAuthentic := by
  suffices h : ∀ (m : Nat) (st : DecReaderSt), st.up.length = m →
      (decReaderWTLoop A L pub tag0 sink st).1.2 = some .notAuthentic →
      (decReaderWTLoop A L pub tag0 sink st).2.errSt = some .notAuthentic by
    intro st
    exact h st.up.length st rfl
  intro m
  induction m using Nat.strong_induction_on with
  | _ m ih =>
    intro st hm
    rw [decReaderWTLoop.eq_def]
    by_cases hL : L = 0
    · rw [if_pos hL]
      intro h
      simp at h
    rw [if_neg hL]
    by_cases h0 : st.seq % 2 ^ 32 = 0
    · rw [if_pos h0]
      intro h
      simp at h
    rw [if_neg h0]
    dsimp only
    by_cases h1 : st.up.length < L + A.tagSize
    · rw [if_pos h1]
      by_cases h2 : ([st.carry] ++ st.up.take (L + A.tagSize)).length < A.tagSize
      · rw [if_pos h2]
        intro h
        rfl
      rw [if_neg h2]
      cases hdo : decOpen A pub tag0 (st.seq % 2 ^ 32) 0x80
          ([st.carry] ++ st.up.take (L + A.tagSize)) with
      | none =>
        intro h
        rfl
      | some pt =>
        dsimp only
        cases hsk : sink pt with
        | some e =>
          intro h
          dsimp only at h ⊢
          exact h
        | none =>
          intro h
          simp at h
    · rw [if_neg h1]
      cases hdo : decOpen A pub tag0 (st.seq % 2 ^ 32) 0x00
          (([st.carry] ++ st.up.take (L + A.tagSize)).take (L + A.tagSize)) with
      | none =>
        intro h
        rfl
      | some pt =>
        dsimp only
        cases hsk : sink pt with
        | some e =>
          intro h
          dsimp only at h ⊢
          exact h
        | none =>
          dsimp only
          have hl := ih (st.up.drop (L + A.tagSize)).length (by simp; omega)
            { st with
                up := st.up.drop (L + A.tagSize)
                seq := st.seq + 1
                carry := (([st.carry] ++ st.up.take (L + A.tagSize)).drop
                  (L + A.tagSize)).headD 0 }
            rfl
          rcases hrec : decReaderWTLoop A L pub tag0 sink
              { st with
                  up := st.up.drop (L + A.tagSize)
                  seq := st.seq + 1
                  carry := (([st.carry] ++ st.up.take (L + A.tagSize)).drop
                    (L + A.tagSize)).headD 0 }
            with ⟨⟨rest, e⟩, st3⟩
          rw [hrec] at hl
          dsimp only at hl ⊢
          exact hl

/-- The tail of `DecReader.WriteTo` forwards only opened or already-opened
(pending-buffer) plaintext and keeps the buffer invariant. -/
lemma decReaderWTFinish_auth (A : AEAD) (L : Nat) (pub tag0 : List Nat) (sink : Sink)
    (st : DecReaderSt) (acc : List Nat) (hacc : AuthBytes A acc)
    (hinv : DecReaderInv A st) :
    AuthBytes A (decReaderWTFinish A L pub tag0 sink st acc).1.1
    ∧ DecReaderInv A (decReaderWTFinish A L pub tag0 sink st acc).2 := by
  unfold decReaderWTFinish
  have hpb : AuthBytes A (st.pbuf.drop st.off) := by
    rcases hinv with h | h
    · rw [h]
      simpa using authBytes_nil A
    · exact openedPiece_authBytes A _ (openedPiece_drop A _ _ (openedFrag_piece A _ h))
  by_cases ho : st.off > 0
  · rw [if_pos ho]
    cases hsk : sink (st.pbuf.drop st.off) with
    | some e => exact ⟨hacc, hinv⟩
    | none =>
      dsimp only
      by_cases hc : st.closed
      · rw [if_pos hc]
        exact ⟨authBytes_append A acc _ hacc hpb, hinv⟩
      rw [if_neg hc]
      obtain ⟨ha, hi⟩ := decReaderWTLoop_auth A L pub tag0 sink { st with off := 0 } hinv
      rcases hrec : decReaderWTLoop A L pub tag0 sink { st with off := 0 }
        with ⟨⟨rest, e⟩, st2⟩
      rw [hrec] at ha hi
      dsimp only at ha hi ⊢
      exact ⟨authBytes_append A _ rest (authBytes_append A acc _ hacc hpb) ha, hi⟩
  · rw [if_neg ho]
    by_cases hc : st.closed
    · rw [if_pos hc]
      exact ⟨hacc, hinv⟩
    rw [if_neg hc]
    obtain ⟨ha, hi⟩ := decReaderWTLoop_auth A L pub tag0 sink st hinv
    rcases hrec : decReaderWTLoop A L pub tag0 sink st with ⟨⟨rest, e⟩, st2⟩
    rw [hrec] at ha hi
    dsimp only at ha hi ⊢
    exact ⟨authBytes_append A acc rest hacc ha, hi⟩

/-- The tail of `DecReader.WriteTo` latches a `NotAuthentic` result. -/
lemma decReaderWTFinish_latch (A : AEAD) (L : Nat) (pub tag0 : List Nat) (sink : Sink)
    (st : DecReaderSt) (acc : List Nat)
    (h : (decReaderWTFinish A L pub tag0 sink st acc).1.2 = some .notAuthentic) :
    (decReaderWTFinish A L pub tag0 sink st acc).2.errSt = some .notAuthentic := by
  unfold decReaderWTFinish at h ⊢
  by_cases ho : st.off > 0
  · rw [if_pos ho] at h ⊢
    cases hsk : sink (st.pbuf.drop st.off) with
    | some e =>
      rw [hsk] at h
      dsimp only at h ⊢
      exact h
    | none =>
      rw [hsk] at h
      dsimp only at h ⊢
      by_cases hc : st.closed
      · rw [if_pos hc] at h
        simp at h
      rw [if_neg hc] at h ⊢
      have hl := decReaderWTLoop_latch A L pub tag0 sink { st with off := 0 }
      rcases hrec : decReaderWTLoop A L pub tag0 sink { st with off := 0 }
        with ⟨⟨rest, e⟩, st2⟩
      rw [hrec] at h hl
      dsimp only at h hl ⊢
      exact hl h
  · rw [if_neg ho] at h ⊢
    by_cases hc : st.closed
    · rw [if_pos hc] at h
      simp at h
    rw [if_neg hc] at h ⊢
    have hl := decReaderWTLoop_latch A L pub tag0 sink st
    rcases hrec : decReaderWTLoop A L pub tag0 sink st with ⟨⟨rest, e⟩, st2⟩
    rw [hrec] at h hl
    dsimp only at h hl ⊢
    exact hl h

/-- `DecReader.WriteTo` forwards only opened plaintext and keeps the buffer
invariant. -/
lemma decReaderWriteTo_auth (A : AEAD) (L : Nat) (pub tag0 : List Nat) (sink : Sink)
    (st : DecReaderSt) (hinv : DecReaderInv A st) :
    AuthBytes A (decReaderWriteTo A L pub tag0 sink st).1.1
    ∧ DecReaderInv A (decReaderWriteTo A L pub tag0 sink st).2 := by
  unfold decReaderWriteTo
  cases herr : st.errSt with
  | some e => exact ⟨authBytes_nil A, hinv⟩
  | none =>
    dsimp only
    by_cases hf : st.firstRead
    · rw [if_pos hf]
      obtain ⟨ha, hi⟩ := decReaderReadFragment_auth A L pub tag0
        { st with firstRead := false, errSt := none } (1 + (L + A.tagSize)) 0 hinv
      by_cases he : (decReaderReadFragment A L pub tag0
            { st with firstRead := false, errSt := none } (1 + (L + A.tagSize)) 0).1.2
            = none
          ∨ (decReaderReadFragment A L pub tag0
            { st with firstRead := false, errSt := none } (1 + (L + A.tagSize)) 0).1.2
            = some .eof
      · rw [if_pos he]
        cases hsk : sink (decReaderReadFragment A L pub tag0
            { st with firstRead := false, errSt := none } (1 + (L + A.tagSize)) 0).1.1 with
        | some ew => exact ⟨authBytes_nil A, hi⟩
        | none =>
          dsimp only
          by_cases hc : (decReaderReadFragment A L pub tag0
              { st with firstRead := false, errSt := none }
              (1 + (L + A.tagSize)) 0).2.closed
          · rw [if_pos hc]
            exact ⟨ha, hi⟩
          rw [if_neg hc]
          exact decReaderWTFinish_auth A L pub tag0 sink _ _ ha hi
      · rw [if_neg he]
        exact ⟨authBytes_nil A, hi⟩
    · rw [if_neg hf]
      exact decReaderWTFinish_auth A L pub tag0 sink st [] (authBytes_nil A) hinv

/-- `DecReader.WriteTo` latches a `NotAuthentic` result, provided the
downstream writer itself never reports `NotAuthentic` (the one error the
code returns unlatched is a downstream write error on the very first
fragment). -/
lemma decReaderWriteTo_latch (A : AEAD) (L : Nat) (pub tag0 : List Nat) (sink : Sink)
    (hsink : ∀ q, sink q ≠ some Err.notAuthentic) (st : DecReaderSt)
    (h : (decReaderWriteTo A L pub tag0 sink st).1.2 = some .notAuthentic) :
    (decReaderWriteTo A L pub tag0 sink st).2.errSt = some .notAuthentic := by
  unfold decReaderWriteTo at h ⊢
  cases herr : st.errSt with
  | some e =>
    rw [herr] at h
    dsimp only at h ⊢
    rw [herr]
    exact h
  | none =>
    rw [herr] at h
    dsimp only at h ⊢
    by_cases hf : st.firstRead
    · rw [if_pos hf] at h ⊢
      by_cases he : (decReaderReadFragment A L pub tag0
            { st with firstRead := false, errSt := none } (1 + (L + A.tagSize)) 0).1.2
            = none
          ∨ (decReaderReadFragment A L pub tag0
            { st with firstRead := false, errSt := none } (1 + (L + A.tagSize)) 0).1.2
            = some .eof
      · rw [if_pos he] at h ⊢
        cases hsk : sink (decReaderReadFragment A L pub tag0
            { st with firstRead := false, errSt := none } (1 + (L + A.tagSize)) 0).1.1 with
        | some ew =>
          rw [hsk] at h
          dsimp only at h
          have hew : ew = Err.notAuthentic := by
            simpa using h
          rw [hew] at hsk
          exact absurd hsk (hsink _)
        | none =>
          rw [hsk] at h
          dsimp only at h ⊢
          by_cases hc : (decReaderReadFragment A L pub tag0
              { st with firstRead := false, errSt := none }
              (1 + (L + A.tagSize)) 0).2.closed
          · rw [if_pos hc] at h
            simp at h
          rw [if_neg hc] at h ⊢
          exact decReaderWTFinish_latch A L pub tag0 sink _ _ h
      · rw [if_neg he] at h ⊢
        exact decReaderReadFragment_latch A L pub tag0
          { st with firstRead := false, errSt := none } (1 + (L + A.tagSize)) 0 h
    · rw [if_neg hf] at h ⊢
      exact decReaderWTFinish_latch A L pub tag0 sink st [] h

/-- `DecReader.WriteTo` replays a latched error. -/
lemma decReaderWriteTo_replay (A : AEAD) (L : Nat) (pub tag0 : List Nat) (sink : Sink)
    (st : DecReaderSt) (e : Err) (h : st.errSt = some e) :
    decReaderWriteTo A L pub tag0 sink st = (([], some e), st) := by
  unfold decReaderWriteTo
  rw [h]

/-- The lazy fragment reads of `DecReaderAt.ReadAt` produce only opened
plaintext — including the fragments opened before a later failure. -/
lemma decReaderDrainN_authBytes (A : AEAD) (L : Nat) (pub tag0 : List Nat) :
    ∀ (s : Nat) (V : List Nat) (need : Nat),
      AuthBytes A (decReaderDrainN A L pub tag0 s V need).1 := by
  suffices h : ∀ (m : Nat) (V : List Nat), V.length = m → ∀ (s need : Nat),
      AuthBytes A (decReaderDrainN A L pub tag0 s V need).1 by
    intro s V need
    exact h V.length V rfl s need
  intro m
  induction m using Nat.strong_induction_on with
  | _ m ih =>
    intro V hVm s need
    rw [decReaderDrainN.eq_def]
    by_cases hL : L = 0
    · rw [if_pos hL]
      exact authBytes_nil A
    rw [if_neg hL]
    by_cases hneed : need = 0
    · rw [if_pos hneed]
      exact authBytes_nil A
    rw [if_neg hneed]
    by_cases h0 : s % 2 ^ 32 = 0
    · rw [if_pos h0]
      exact authBytes_nil A
    rw [if_neg h0]
    by_cases hlen : V.length ≤ L + A.tagSize
    · rw [if_pos hlen]
      by_cases h2 : V.length < A.tagSize
      · rw [if_pos h2]
        exact authBytes_nil A
      rw [if_neg h2]
      cases hdo : decOpen A pub tag0 (s % 2 ^ 32) 0x80 V with
      | none => exact authBytes_nil A
      | some pt => exact decOpen_authBytes A pub tag0 _ 0x80 V pt hdo
    · rw [if_neg hlen]
      cases hdo : decOpen A pub tag0 (s % 2 ^ 32) 0x00 (V.take (L + A.tagSize)) with
      | none => exact authBytes_nil A
      | some pt =>
        dsimp only
        by_cases hne : need ≤ pt.length
        · rw [if_pos hne]
          exact decOpen_authBytes A pub tag0 _ 0x00 _ pt hdo
        rw [if_neg hne]
        have ha := ih (V.drop (L + A.tagSize)).length (by simp; omega)
          (V.drop (L + A.tagSize)) rfl (s + 1) (need - pt.length)
        rcases hrec : decReaderDrainN A L pub tag0 (s + 1) (V.drop (L + A.tagSize))
            (need - pt.length) with ⟨rest, e⟩
        rw [hrec] at ha
        dsimp only at ha ⊢
        exact authBytes_append A pt rest
          (decOpen_authBytes A pub tag0 _ 0x00 _ pt hdo) ha

/-- `DecReaderAt.ReadAt` delivers only opened plaintext. -/
lemma decReadAtP_authBytes (A : AEAD) (L : Nat) (pub tag0 C : List Nat)
    (plen : Nat) (offset : Int) :
    AuthBytes A (decReadAtP A L pub tag0 C plen offset).1 := by
  unfold decReadAtP
  by_cases h0 : offset < 0
  · rw [if_pos h0]
    exact authBytes_nil A
  rw [if_neg h0]
  dsimp only
  by_cases h1 : offset.toNat / L + 1 > 2 ^ 32 - 1
  · rw [if_pos h1]
    exact authBytes_nil A
  rw [if_neg h1]
  have hg := decReaderDrainN_authBytes A L pub tag0 (1 + offset.toNat / L)
    (C.drop (offset.toNat / L * (L + A.tagSize))) (offset.toNat % L + plen)
  rcases hdr : decReaderDrainN A L pub tag0 (1 + offset.toNat / L)
      (C.drop (offset.toNat / L * (L + A.tagSize))) (offset.toNat % L + plen)
    with ⟨got, e⟩
  rw [hdr] at hg
  dsimp only at hg ⊢
  by_cases h2 : got.length < offset.toNat % L
  · rw [if_pos h2]
    exact authBytes_nil A
  rw [if_neg h2]
  by_cases h3 : ((got.drop (offset.toNat % L)).take plen).length < plen
  · rw [if_pos h3]
    exact authBytes_take A _ plen (authBytes_drop A got _ hg)
  · rw [if_neg h3]
    exact authBytes_take A _ plen (authBytes_drop A got _ hg)

/-- Claim C2: every decrypt adapter only emits authenticated plaintext, and
an authentication failure is latched.  `DecWriter`: every entry point
(`Write`, `WriteByte`, `Close`, `ReadFrom`), from any state and for any
downstream writer, extends the bytes accepted downstream only by a
concatenation of pieces of successfully opened fragments — a fragment on
which `Open` fails contributes nothing; a `NotAuthentic` result is latched
in `w.err`, and a latched error is replayed by every entry point with no
output.  `DecReader`: the fresh reader satisfies the buffer invariant; from
any state satisfying it, `Read` and `WriteTo` emit only authenticated bytes
(for `WriteTo` including the fragments forwarded downstream before a later
failure) and preserve the invariant; both latch a `NotAuthentic` result
(`WriteTo` provided the downstream writer does not itself report
`NotAuthentic`, since a first-fragment write error is returned unlatched)
and replay a latched error.  `DecReaderAt`: every `ReadAt` delivers only
authenticated bytes, on failing runs too. -/
theorem dec_adapters_only_authentic (A : AEAD) (L : Nat) (pub tag0 : List Nat)
    (sink : Sink) :
    (∀ st p res, decWriterWrite A L pub tag0 sink st p = .ret res →
        ∃ d, res.2.out = st.out ++ d ∧ AuthBytes A d)
    ∧ (∀ st b res, decWriterWriteByte A L pub tag0 sink st b = .ret res →
        ∃ d, res.2.out = st.out ++ d ∧ AuthBytes A d)
    ∧ (∀ st, ∃ d, (decWriterClose A pub tag0 sink st).2.out = st.out ++ d
        ∧ AuthBytes A d)
    ∧ (∀ st U res, decWriterReadFrom A L pub tag0 sink st U = .ret res →
        ∃ d, res.2.out = st.out ++ d ∧ AuthBytes A d)
    ∧ (∀ st p res, decWriterWrite A L pub tag0 sink st p = .ret res →
        res.1.2 = some .notAuthentic → res.2.errSt = some .notAuthentic)
    ∧ (∀ st b res, decWriterWriteByte A L pub tag0 sink st b = .ret res →
        res.1 = some .notAuthentic → res.2.errSt = some .notAuthentic)
    ∧ (∀ st, (decWriterClose A pub tag0 sink st).1 = some .notAuthentic →
        (decWriterClose A pub tag0 sink st).2.errSt = some .notAuthentic)
    ∧ (∀ st U res, decWriterReadFrom A L pub tag0 sink st U = .ret res →
        res.1.2 = some .notAuthentic → res.2.errSt = some .notAuthentic)
    ∧ (∀ st p e, st.closed = false → st.errSt = some e →
        decWriterWrite A L pub tag0 sink st p = .ret ((0, some e), st))
    ∧ (∀ st b e, st.closed = false → st.errSt = some e →
        decWriterWriteByte A L pub tag0 sink st b = .ret (some e, st))
    ∧ (∀ st U e, st.closed = false → st.errSt = some e →
        decWriterReadFrom A L pub tag0 sink st U = .ret ((0, some e), st))
    ∧ (∀ C, DecReaderInv A (decReaderInit C))
    ∧ (∀ st plen, DecReaderInv A st →
        AuthBytes A (decReaderRead A L pub tag0 st plen).1.1
        ∧ DecReaderInv A (decReaderRead A L pub tag0 st plen).2)
    ∧ (∀ st plen, (decReaderRead A L pub tag0 st plen).1.2 = some .notAuthentic →
        (decReaderRead A L pub tag0 st plen).2.errSt = some .notAuthentic)
    ∧ (∀ st plen e, st.errSt = some e →
        decReaderRead A L pub tag0 st plen = (([], some e), st))
    ∧ (∀ st, DecReaderInv A st →
        AuthBytes A (decReaderWriteTo A L pub tag0 sink st).1.1
        ∧ DecReaderInv A (decReaderWriteTo A L pub tag0 sink st).2)
    ∧ ((∀ q, sink q ≠ some Err.notAuthentic) → ∀ st,
        (decReaderWriteTo A L pub tag0 sink st).1.2 = some .notAuthentic →
        (decReaderWriteTo A L pub tag0 sink st).2.errSt = some .notAuthentic)
    ∧ (∀ st e, st.errSt = some e →
        decReaderWriteTo A L pub tag0 sink st = (([], some e), st))
    ∧ (∀ C plen offset, AuthBytes A (decReadAtP A L pub tag0 C plen offset).1) := by
  refine ⟨?_, ?_, ?_, ?_, ?_, ?_, ?_, ?_, ?_, ?_, ?_, ?_, ?_, ?_, ?_, ?_, ?_, ?_, ?_⟩
  · intro st p res h
    exact decWriterWrite_out A L pub tag0 sink st p res h
  · intro st b res h
    exact decWriterWriteByte_out A L pub tag0 sink st b res h
  · intro st
    exact decWriterClose_out A pub tag0 sink st
  · intro st U res h
    exact decWriterReadFrom_out A L pub tag0 sink st U res h
  · intro st p res h he
    exact decWriterWrite_latch A L pub tag0 sink st p res h he
  · intro st b res h he
    exact decWriterWriteByte_latch A L pub tag0 sink st b res h he
  · intro st h
    exact decWriterClose_latch A pub tag0 sink st h
  · intro st U res h he
    exact decWriterReadFrom_latch A L pub tag0 sink st U res h he
  · intro st p e hc h
    exact decWriterWrite_replay A L pub tag0 sink st p e hc h
  · intro st b e hc h
    exact decWriterWriteByte_replay A L pub tag0 sink st b e hc h
  · intro st U e hc h
    exact decWriterReadFrom_replay A L pub tag0 sink st U e hc h
  · intro C
    exact Or.inl rfl
  · intro st plen hinv
    exact decReaderRead_auth A L pub tag0 st plen hinv
  · intro st plen h
    exact decReaderRead_latch A L pub tag0 st plen h
  · intro st plen e h
    exact decReaderRead_replay A L pub tag0 st plen e h
  · intro st hinv
    exact decReaderWriteTo_auth A L pub tag0 sink st hinv
  · intro hsink st h
    exact decReaderWriteTo_latch A L pub tag0 sink hsink st h
  · intro st e h
    exact decReaderWriteTo_replay A L pub tag0 sink st e h
  · intro C plen offset
    exact decReadAtP_authBytes A L pub tag0 C plen offset

/-- Witness for C2 at the toy AEAD, discharging each kind of hypothesis at a
concrete input: a `WriteByte` that buffers one byte emits nothing new
downstream; a fresh `DecReader`'s first `Read` over the ciphertext of `[7]`
emits only authenticated bytes; so does a fresh `WriteTo`; a `Write` on a
writer with a latched downstream error replays it; and a `WriteTo` on a
reader with latched `NotAuthentic` (an always-accepting downstream, which
never reports `NotAuthentic`) leaves it latched. -/
theorem dec_adapters_only_authentic_witness :
    (∃ d, ((none, ⟨1, [5], [], false, none⟩) :
        Option Err × DecWriterSt).2.out = (⟨1, [], [], false, none⟩ : DecWriterSt).out ++ d
      ∧ AuthBytes toyAEAD d)
    ∧ AuthBytes toyAEAD (decReaderRead toyAEAD 2 [0] (tagZero toyAEAD [0] [])
        (decReaderInit [7, 137]) 10).1.1
    ∧ AuthBytes toyAEAD (decReaderWriteTo toyAEAD 2 [0] (tagZero toyAEAD [0] []) okSink
        (decReaderInit [7, 137])).1.1
    ∧ decWriterWrite toyAEAD 2 [0] (tagZero toyAEAD [0] []) okSink
        ⟨1, [], [], false, some .ioErr⟩ [9]
      = .ret ((0, some .ioErr), ⟨1, [], [], false, some .ioErr⟩)
    ∧ (decReaderWriteTo toyAEAD 2 [0] (tagZero toyAEAD [0] []) okSink
        ⟨[], 1, 0, false, false, some .notAuthentic, [], 0⟩).2.errSt
      = some .notAuthentic := by
  obtain ⟨hw, hwb, hcl, hrf, hwl, hwbl, hcll, hrfl, hwr, hwbr, hrfr, hinit, hread, hrl,
    hrr, hwt, hwtl, hwtr, hat⟩ :=
    dec_adapters_only_authentic toyAEAD 2 [0] (tagZero toyAEAD [0] []) okSink
  refine ⟨?_, ?_, ?_, ?_, ?_⟩
  · exact hwb ⟨1, [], [], false, none⟩ 5 (none, ⟨1, [5], [], false, none⟩) rfl
  · exact (hread (decReaderInit [7, 137]) 10 (hinit [7, 137])).1
  · exact (hwt (decReaderInit [7, 137]) (hinit [7, 137])).1
  · exact hwr ⟨1, [], [], false, some .ioErr⟩ [9] .ioErr rfl rfl
  · exact hwtl (fun q h => by simp [okSink] at h)
      ⟨[], 1, 0, false, false, some .notAuthentic, [], 0⟩ rfl

end Sio
